import Mathlib

/-!
Verification of the dataset download-and-packaging pipeline in
`src/data_import.py` (functions `_list_prepared_files`,
`_download_prepared_dataset`, `_validate_csv_file`, `_read_sha256`,
`_verify_sha256`, `main`).

File contents (bytes) are modelled as Lean `String`s; external
collaborators (the HTTP fetch, the SHA-256 digest from `hashlib`, the
`gzip`/`zstandard` decompressors and the `csv` parser) are threaded in
as explicit function parameters, mirroring the spec's treatment of them
as black boxes.
-/

namespace DataImport

/-! ### Python string primitives used by the script -/

/-- ASCII lowercasing of one character. -/
def lowerChar (c : Char) : Char :=
  if 'A' ≤ c ∧ c ≤ 'Z' then Char.ofNat (c.toNat + 32) else c

/-- `s.lower()`: per-character lowercasing (the names handled by the
script are ASCII). -/
def strLower (s : String) : String := ⟨s.toList.map lowerChar⟩

/-- `s.endswith(suf)`. -/
def strEndsWith (s suf : String) : Bool := List.isSuffixOf suf.toList s.toList

/-- `s[:-n]`: drop the last `n` characters. -/
def strDropRight (s : String) (n : Nat) : String :=
  ⟨s.toList.take (s.toList.length - n)⟩

/-- `s[:i]`: take the first `i` characters. -/
def strTake (s : String) (i : Nat) : String := ⟨s.toList.take i⟩

/-- Index of the first occurrence of `pat` in `s` (`s.index(pat)` /
`pat in s`). -/
def indexOfSubstr (s pat : String) : Option Nat :=
  (List.range (s.toList.length + 1)).find?
    (fun i => List.isPrefixOf pat.toList (s.toList.drop i))

/-- `pat in s`. -/
def containsSubstr (s pat : String) : Bool := (indexOfSubstr s pat).isSome

/-- Python `str.split()` / `str.strip()` whitespace. -/
def isPyWs (c : Char) : Bool :=
  c = ' ' || c = '\t' || c = '\n' || c = '\r' || c = '\x0b' || c = '\x0c'

/-- Tokenizer loop for `s.split()`: `acc` is the current token read so
far, reversed. -/
def splitWsAux : List Char → List Char → List String
  | [], acc => if acc = [] then [] else [⟨acc.reverse⟩]
  | c :: rest, acc =>
    if isPyWs c then
      if acc = [] then splitWsAux rest []
      else ⟨acc.reverse⟩ :: splitWsAux rest []
    else splitWsAux rest (c :: acc)

/-- `s.split()`: maximal whitespace-delimited tokens, empties dropped. -/
def splitWs (s : String) : List String := splitWsAux s.toList []

/-- Lexicographic code-point comparison of character lists: the order
Python uses to compare strings. -/
def lexLe : List Char → List Char → Bool
  | [], _ => true
  | _ :: _, [] => false
  | a :: s, b :: t =>
    if a.toNat < b.toNat then true
    else if b.toNat < a.toNat then false
    else lexLe s t

/-- Comparator used for `sorted(...)` on strings: lexicographic by code
point, as in Python. -/
def strLe (a b : String) : Bool := lexLe a.toList b.toList

/-- Insert into a sorted list (`le`-first position). -/
def insertLe {α : Type} (le : α → α → Bool) (a : α) : List α → List α
  | [] => [a]
  | b :: l => if le a b then a :: b :: l else b :: insertLe le a l

/-- A comparison sort standing in for Python's `sorted(...)`: on the
lists the script sorts (distinct keys, or duplicate keys attached to
identical elements) any correct comparison sort produces the same
output. -/
def sortByLe {α : Type} (le : α → α → Bool) : List α → List α
  | [] => []
  | a :: l => insertLe le a (sortByLe le l)

/-- Concatenation of a list of byte strings (the multipart reassembly
loop appends each part to the combined file in turn). -/
def strJoin : List String → String
  | [] => ""
  | s :: rest => s ++ strJoin rest

/-! ### Remote catalog (`_list_prepared_files`, lines 83–125) -/

/-- Module-level `BASE_URL` constant (line 19). -/
def baseUrl : String := "https://github.com/kaae-2/ob-flow-datasets/raw/main"

/-- One entry of the GitHub contents-API listing, as consumed by the
script: `item.get("type")`, `item.get("name")` (a missing or null name
is modelled as `""`, which the script skips), `item.get("download_url")`. -/
structure RemoteItem where
  itemType : String
  name : String
  downloadUrl : Option String
deriving DecidableEq, Repr

/-- The decoded JSON payload of the listing endpoint: either a JSON
list of items, or anything else (`isinstance(payload, list)` fails). -/
inductive Payload where
  | list (items : List RemoteItem)
  | nonList
deriving DecidableEq, Repr

/-- A recognized prepared file: `{"name": ..., "url": ..., "kind": ...}`
with `kind` either `"data"` or `"sha"` (lines 122–124). -/
structure FileEntry where
  name : String
  url : String
  kind : String
deriving DecidableEq, Repr

/-- The multipart marker `.csv.zst.part` (lines 117, 193, 220). -/
def partMarker : String := ".csv.zst.part"

/-- The data-suffix filter of the catalog (lines 113–118), applied to
the lowercased name. -/
def isDataName (lower : String) : Bool :=
  strEndsWith lower ".csv" || strEndsWith lower ".csv.gz" ||
    strEndsWith lower ".csv.zst" || containsSubstr lower partMarker

/-- The checksum-suffix filter of the catalog (line 119), applied to
the lowercased name. -/
def isShaName (lower : String) : Bool := strEndsWith lower ".csv.zst.sha256"

/-- Default download URL `f"{BASE_URL}/prepared/{dataset_name}/{name}"`
(line 122). -/
def defaultUrl (dataset name : String) : String :=
  baseUrl ++ "/prepared/" ++ dataset ++ "/" ++ name

/-- The per-item filter of `_list_prepared_files` (lines 106–124): skip
non-files and empty names, keep only recognized data/checksum suffixes,
fall back to the raw URL when `download_url` is missing or empty. -/
def entryOfItem (dataset : String) (item : RemoteItem) : Option FileEntry :=
  if item.itemType ≠ "file" then none
  else if item.name = "" then none
  else
    let lower := strLower item.name
    if !(isDataName lower || isShaName lower) then none
    else
      let url :=
        match item.downloadUrl with
        | some u => if u = "" then defaultUrl dataset item.name else u
        | none => defaultUrl dataset item.name
      some { name := item.name, url := url,
             kind := if isShaName lower then "sha" else "data" }

/-- The body of `_list_prepared_files` after a successful HTTP request
(lines 104–125): a non-list payload yields the empty list. -/
def entriesOfPayload (dataset : String) : Payload → List FileEntry
  | .list items => items.filterMap (entryOfItem dataset)
  | .nonList => []

/-- `_list_prepared_files` (lines 83–125): the listing request either
fails (the `urllib` exceptions re-raised as `RuntimeError`, modelled as
`Except.error` on the response) or returns a decoded payload that is
filtered into entries. -/
def listPreparedFiles (dataset : String) :
    Except String Payload → Except String (List FileEntry)
  | .error e => .error e
  | .ok payload => .ok (entriesOfPayload dataset payload)

/-! ### Variant grouping (lines 184–201) -/

/-- Base-name extraction (lines 191–200): the multipart marker takes
precedence (index computed on the lowercased name), otherwise the first
matching suffix of `(".csv", ".csv.gz", ".csv.zst")` is stripped,
otherwise the name itself is the base. -/
def baseOf (name : String) : String :=
  let lower := strLower name
  match indexOfSubstr lower partMarker with
  | some i => strTake name i
  | none =>
    if strEndsWith lower ".csv" then strDropRight name 4
    else if strEndsWith lower ".csv.gz" then strDropRight name 7
    else if strEndsWith lower ".csv.zst" then strDropRight name 8
    else name

/-- `by_base.setdefault(base, []).append(p)` (line 201) on an
insertion-ordered association list (Python dicts preserve insertion
order). -/
def insertGroup : List (String × List String) → String → String →
    List (String × List String)
  | [], b, n => [(b, [n])]
  | (b', ms) :: rest, b, n =>
    if b' = b then (b', ms ++ [n]) :: rest
    else (b', ms) :: insertGroup rest b n

/-- The grouping loop (lines 184–201) over the data file names. -/
def groupEntries (names : List String) : List (String × List String) :=
  names.foldl (fun acc n => insertGroup acc (baseOf n) n) []

/-- `sorted(by_base.items())` (line 203): groups iterated in sorted
base order (bases are distinct dict keys, so the tuple comparison only
ever inspects the base). -/
def sortGroups (gs : List (String × List String)) : List (String × List String) :=
  sortByLe (fun a b => strLe a.1 b.1) gs

/-! ### Format resolution (lines 204–225) -/

/-- Predicate of preference step 1 (line 206). -/
def isPlainCsv (n : String) : Bool :=
  strEndsWith (strLower n) ".csv" && !(strEndsWith (strLower n) ".csv.gz")

/-- Predicate of preference step 2 (line 211). -/
def isGzName (n : String) : Bool := strEndsWith (strLower n) ".csv.gz"

/-- Predicate of preference step 3 (line 216). -/
def isZstName (n : String) : Bool := strEndsWith (strLower n) ".csv.zst"

/-- Predicate of preference step 4 (lines 220–221). -/
def isPartName (n : String) : Bool := containsSubstr (strLower n) partMarker

/-- The resolved representation of a variant group: the `(src, typ)`
pair built in lines 204–225 (`typ` of `"csv"`, `"gz"`, `"zst"`,
`"zst_parts"`, or `None`). -/
inductive Chosen where
  | csvFile (name : String)
  | gzFile (name : String)
  | zstFile (name : String)
  | zstParts (names : List String)
  | fallback (name : String)
deriving DecidableEq, Repr

/-- The format resolver (lines 204–225): first member matching each
predicate, in fixed preference order; all multipart members for step 4;
the group's first member as fallback. -/
def resolveGroup (members : List String) : Chosen :=
  match members.find? isPlainCsv with
  | some p => .csvFile p
  | none =>
    match members.find? isGzName with
    | some p => .gzFile p
    | none =>
      match members.find? isZstName with
      | some p => .zstFile p
      | none =>
        let parts := members.filter isPartName
        if parts ≠ [] then .zstParts parts
        else .fallback (members.headD "")

example : baseOf "x.csv.zst.part001" = "x" := rfl
example : baseOf "demo.CSV.gz" = "demo" := rfl
example : resolveGroup ["a.csv.gz", "a.csv"] = .csvFile "a.csv" := rfl
example : resolveGroup ["a.csv.zst.part002", "a.csv.zst.part001"] =
    .zstParts ["a.csv.zst.part002", "a.csv.zst.part001"] := rfl

/-! ### External collaborators

The digest, the decompressors and the CSV parser are external library
calls (`hashlib`, `gzip`, `zstandard`, `csv`); they are threaded in as
opaque-function fields of an environment, and `zstd_available` models
the `import zstandard` capability probe (lines 167–173). -/

structure Env where
  sha256 : String → String
  gunzip : String → String
  zstdDecompress : String → String
  zstdAvailable : Bool
  parseCsv : String → List (List String)

/-! ### Checksums (`_read_sha256`, `_verify_sha256`, lines 128–149) -/

/-- `_read_sha256` (lines 128–132): strip the file, fail on empty,
return the first whitespace-delimited token.  `strip` followed by the
emptiness test is equivalent to testing for an empty token list. -/
def readSha256 (content : String) : Except String String :=
  match splitWs content with
  | [] => .error "SHA256 file is empty."
  | t :: _ => .ok t

/-- `_verify_sha256` (lines 143–149): compare the computed digest of
the content against the expected token; both failure modes are
`ValueError`s caught by the caller. -/
def verifySha256 (env : Env) (content shaContent : String) : Except String Unit :=
  match readSha256 shaContent with
  | .error e => .error e
  | .ok expected =>
    let actual := env.sha256 content
    if actual ≠ expected then
      .error ("SHA256 mismatch (expected " ++ expected ++ ", got " ++ actual ++ ").")
    else .ok ()

/-! ### Structural validation (`_validate_csv_file`, lines 51–80) -/

/-- The `ValueError`s raised by `_validate_csv_file`. -/
inductive ValErr where
  | emptyFile
  | noHeader
  | emptyHeader
  | rowShape (idx obs exp : Nat)
deriving DecidableEq, Repr

/-- The message text of each `ValueError` (lines 54, 70, 74, 78–79). -/
def valMessage : ValErr → String
  | .emptyFile => "CSV file is empty."
  | .noHeader => "CSV file has no header row."
  | .emptyHeader => "CSV header has no columns."
  | .rowShape idx obs exp =>
    "Row " ++ toString idx ++ " has " ++ toString obs ++
      " columns (expected " ++ toString exp ++ ")."

/-- The row loop of `_validate_csv_file` (lines 76–80):
`enumerate(reader, start=2)` with the first offending row reported. -/
def checkRows (expected : Nat) (idx : Nat) : List (List String) → Except ValErr Unit
  | [] => .ok ()
  | r :: rest =>
    if r.length ≠ expected then .error (.rowShape idx r.length expected)
    else checkRows expected (idx + 1) rest

/-- The parsed-row part of `_validate_csv_file` (lines 65–80): header
extraction, empty-header check, then the row loop starting at row 2. -/
def validateRows (rows : List (List String)) : Except ValErr Unit :=
  match rows with
  | [] => .error .noHeader
  | header :: dataRows =>
    if header.length = 0 then .error .emptyHeader
    else checkRows header.length 2 dataRows

/-- Trailing-newline repair (lines 56–63): if the last byte is not a
newline, one is appended in place. -/
def repairNewline (s : String) : String :=
  if strEndsWith s "\n" then s else s ++ "\n"

/-- `_validate_csv_file` (lines 51–80) on a file's byte content:
emptiness check, in-place newline repair, then row validation of the
repaired content; on success the (possibly repaired) content is what
remains on disk for packaging. -/
def validateCsvFile (env : Env) (content : String) : Except ValErr String :=
  if content = "" then .error .emptyFile
  else
    let repaired := repairNewline content
    match validateRows (env.parseCsv repaired) with
    | .error e => .error e
    | .ok _ => .ok repaired

/-! ### Fetching (`download_file` and the loop at lines 175–182) -/

/-- The download loop (lines 176–180): each entry is fetched by URL
into `tmpdir/name`; the first failure aborts the whole run.  `fetch`
models `download_file`'s success (`some` bytes written) or failure
(`none`, any of the HTTP / network / unexpected branches). -/
def fetchAllEntries (fetch : String → Option String) :
    List FileEntry → Except String (List (String × String))
  | [] => .ok []
  | e :: rest =>
    match fetch e.url with
    | none => .error e.url
    | some b =>
      match fetchAllEntries fetch rest with
      | .error u => .error u
      | .ok l => .ok ((e.name, b) :: l)

/-- `downloaded_by_name = {p.name: p for p in downloaded_paths}`
(line 182): later duplicates overwrite earlier ones, and a file's
content is that of the last download written to `tmpdir/name`. -/
def lookupDl (l : List (String × String)) (n : String) : Option String :=
  ((l.filter (fun p => p.1 = n)).getLast?).map (fun p => p.2)

/-- The data names admitted to grouping (lines 185–190): `kind ==
"data"` entries whose download is present in `downloaded_by_name`. -/
def dataNames (entries : List FileEntry) (dlList : List (String × String)) :
    List String :=
  ((entries.filter (fun e => e.kind = "data")).map (fun e => e.name)).filter
    (fun n => (lookupDl dlList n).isSome)

/-! ### Per-group materialization (lines 203–301) -/

/-- The ways `_download_prepared_dataset` fails to produce an archive:
each `return None` path, the listing/`main` failure modes, and
`sameFileCrash` — the uncaught `shutil.SameFileError` raised by
`shutil.copy2(src, target)` (lines 233, 299) when the chosen member is
already named `{base}.csv`, so that `src` and `target` are the same
`tmpdir` path; the surrounding `try` has only a `finally`, so the
process crashes, likewise leaving no archive and no companions. -/
inductive RunErr where
  | listing (msg : String)
  | noFiles (dataset : String)
  | fetchFailed (url : String)
  | missingDownload (name : String)
  | sameFileCrash (name : String)
  | missingChecksum (shaName srcName : String)
  | checksumFailed (srcName msg : String)
  | zstdUnavailable (multipart : Bool)
  | checksumPackaged (names : List String)
  | validationFailed (fileName : String) (err : ValErr)
deriving DecidableEq, Repr

/-- The message printed for each failure (lines 156, 160, 243–246,
251–254, 261–263, 275–278, 283–286, 293–295, 304–309, 316–319). -/
def runErrMessage : RunErr → String
  | .listing msg => msg
  | .noFiles dataset =>
    "No prepared CSV files found in the source repository for '" ++ dataset ++ "'."
  | .fetchFailed url => "download failed: " ++ url
  | .missingDownload name => "missing download: " ++ name
  | .sameFileCrash name =>
    "shutil.SameFileError: " ++ name ++ " and " ++ name ++ " are the same file"
  | .missingChecksum shaName srcName =>
    "Error: missing checksum file " ++ shaName ++ " for " ++ srcName ++ "."
  | .checksumFailed srcName msg => "Checksum failed for " ++ srcName ++ ": " ++ msg
  | .zstdUnavailable multipart =>
    if multipart then
      "Error: found .zst parts but Python package 'zstandard' is not installed; cannot decompress."
    else
      "Error: found .zst file but Python package 'zstandard' is not installed; cannot decompress."
  | .checksumPackaged names =>
    "Error: checksum files were packaged as CSVs: " ++ String.intercalate ", " names
  | .validationFailed fileName err =>
    "Validation failed for " ++ fileName ++ ": " ++ valMessage err

/-- Reassembly read loop (lines 268–271): concatenate the bytes of the
given part files in the given order; a missing download is reported by
name. -/
def collectParts (dl : String → Option String) : List String → Except String String
  | [] => .ok ""
  | n :: rest =>
    match dl n with
    | none => .error n
    | some b =>
      match collectParts dl rest with
      | .error m => .error m
      | .ok tail => .ok (b ++ tail)

/-- One iteration of the per-group loop (lines 204–301): resolve the
group, then materialize `{base}.csv` according to the chosen format.
For `zst` the checksum `<src>.sha256` is required and verified before
decompression; for `zst_parts` the parts are concatenated in sorted
filename order into `{base}.csv.zst`, whose checksum
`{base}.csv.zst.sha256` is required and verified before decompression.
The `csv` and fallback branches run `shutil.copy2(src, target)`
(lines 233, 299): when the chosen member's name is exactly
`{base}.csv`, `src` and `target` are the same path and `copy2` raises
an uncaught `SameFileError`, crashing the run — modelled as the
`sameFileCrash` error.  (This happens for every plain member whose
`.csv` suffix is lowercase; a fallback member never has the `.csv`
suffix, so its guard never fires for grouper-produced bases, but it is
kept for faithfulness to the shared `copy2` call.) -/
def processGroup (env : Env) (dl : String → Option String)
    (base : String) (members : List String) : Except RunErr (String × String) :=
  match resolveGroup members with
  | .csvFile p =>
    match dl p with
    | none => .error (.missingDownload p)
    | some b =>
      if p = base ++ ".csv" then .error (.sameFileCrash p)
      else .ok (base ++ ".csv", b)
  | .gzFile p =>
    match dl p with
    | none => .error (.missingDownload p)
    | some b => .ok (base ++ ".csv", env.gunzip b)
  | .zstFile p =>
    match dl p with
    | none => .error (.missingDownload p)
    | some b =>
      match dl (p ++ ".sha256") with
      | none => .error (.missingChecksum (p ++ ".sha256") p)
      | some shaC =>
        match verifySha256 env b shaC with
        | .error m => .error (.checksumFailed p m)
        | .ok _ =>
          if env.zstdAvailable then .ok (base ++ ".csv", env.zstdDecompress b)
          else .error (.zstdUnavailable false)
  | .zstParts ps =>
    match collectParts dl (sortByLe strLe ps) with
    | .error n => .error (.missingDownload n)
    | .ok combined =>
      match dl (base ++ ".csv.zst.sha256") with
      | none =>
        .error (.missingChecksum (base ++ ".csv.zst.sha256") (base ++ ".csv.zst"))
      | some shaC =>
        match verifySha256 env combined shaC with
        | .error m => .error (.checksumFailed (base ++ ".csv.zst") m)
        | .ok _ =>
          if env.zstdAvailable then .ok (base ++ ".csv", env.zstdDecompress combined)
          else .error (.zstdUnavailable true)
  | .fallback p =>
    match dl p with
    | none => .error (.missingDownload p)
    | some b =>
      if p = base ++ ".csv" then .error (.sameFileCrash p)
      else .ok (base ++ ".csv", b)

/-- The whole per-group loop over the sorted groups, accumulating
`added` (lines 203–301): the first failing group aborts. -/
def processGroups (env : Env) (dl : String → Option String) :
    List (String × List String) → Except RunErr (List (String × String))
  | [] => .ok []
  | (b, ms) :: rest =>
    match processGroup env dl b ms with
    | .error e => .error e
    | .ok f =>
      match processGroups env dl rest with
      | .error e => .error e
      | .ok fs => .ok (f :: fs)

/-- The validation loop (lines 312–320): validate each added file in
order, repairing trailing newlines in place; the first failure aborts. -/
def validateAll (env : Env) :
    List (String × String) → Except RunErr (List (String × String))
  | [] => .ok []
  | (n, c) :: rest =>
    match validateCsvFile env c with
    | .error e => .error (.validationFailed n e)
    | .ok c' =>
      match validateAll env rest with
      | .error e => .error e
      | .ok rest' => .ok ((n, c') :: rest')

/-- `_download_prepared_dataset` after a successful listing
(lines 159–328): empty listing is the distinct "no files found"
failure; then every file is fetched, data files grouped by base and
processed per group in sorted base order, the checksum-name guard and
validation run, and finally the archive members are written sorted by
final filename (lines 322–324).  An `Except.ok` value is the member
list (name, bytes) of the written archive; every `Except.error` path
leaves no archive behind. -/
def downloadPreparedEntries (env : Env) (fetch : String → Option String)
    (dataset : String) (entries : List FileEntry) :
    Except RunErr (List (String × String)) :=
  if entries.isEmpty then .error (.noFiles dataset)
  else
    match fetchAllEntries fetch entries with
    | .error u => .error (.fetchFailed u)
    | .ok dlList =>
      let dl := lookupDl dlList
      let groups := sortGroups (groupEntries (dataNames entries dlList))
      match processGroups env dl groups with
      | .error e => .error e
      | .ok added =>
        let badNames := (added.map (fun f => f.1)).filter
          (fun n => containsSubstr n ".sha256")
        if badNames ≠ [] then
          .error (.checksumPackaged (sortByLe strLe badNames))
        else
          match validateAll env added with
          | .error e => .error e
          | .ok repaired => .ok (sortByLe (fun a b => strLe a.1 b.1) repaired)

/-- `_download_prepared_dataset` (lines 152–328), from the listing
response on. -/
def downloadPrepared (env : Env) (fetch : String → Option String)
    (dataset : String) (resp : Except String Payload) :
    Except RunErr (List (String × String)) :=
  match listPreparedFiles dataset resp with
  | .error e => .error (.listing e)
  | .ok entries => downloadPreparedEntries env fetch dataset entries

/-! ### Side files and `main` (lines 369–391) -/

/-- Modelled from the spec: the pseudo-random stream of
`random.Random(seed)` (Python's Mersenne Twister, external standard
library — "a deterministic pseudo-random shuffle seeded by a
caller-supplied integer seed").  Modelled as a deterministic integer
stream derived from the seed; the properties proved about the shuffle
(the output is a permutation of `1..N`, and is a function of `(seed,
N)` alone) hold for any such deterministic stream. -/
def mtStep (s : Nat) : Nat := (s * 75 + 74) % 65537

/-- Swap `x[i], x[j] = x[j], x[i]` on a list. -/
def swapList (l : List Nat) (i j : Nat) : List Nat :=
  let a := l.getD i 0
  let b := l.getD j 0
  (l.set i b).set j a

/-- The Fisher–Yates loop of `random.shuffle`: `for i in
reversed(range(1, len(x))): j = randbelow(i + 1); swap`.  The counter
argument is the current `i`; one stream value is drawn per step. -/
def shuffleSteps : Nat → Nat → List Nat → List Nat
  | _, 0, l => l
  | state, i + 1, l =>
    shuffleSteps (mtStep state) i (swapList l (i + 1) (mtStep state % (i + 2)))

/-- `order = list(range(1, len(downloaded) + 1));
random.Random(args.seed).shuffle(order)` (lines 382–383). -/
def orderPerm (seed n : Nat) : List Nat :=
  shuffleSteps seed (n - 1) (List.range' 1 n)

/-- The files `main` leaves behind: the archive written by
`_download_prepared_dataset` (line 322, as its member list), the empty
attachments companion (lines 377–380) and the order companion's
`{"order": ...}` list (lines 382–387). -/
structure RunOutputs where
  archive : Option (List (String × String))
  attachments : Bool
  orderFile : Option (List Nat)
deriving Repr

/-- `main` (lines 369–391): on a `None` pipeline result nothing is
written and the process exits non-zero; on success the archive exists
and both companions are written. -/
def runMain (env : Env) (fetch : String → Option String) (dataset : String)
    (resp : Except String Payload) (seed : Nat) : RunOutputs :=
  match downloadPrepared env fetch dataset resp with
  | .error _ => { archive := none, attachments := false, orderFile := none }
  | .ok added =>
    { archive := some added, attachments := true,
      orderFile := some (orderPerm seed added.length) }

example : orderPerm 7 5 = orderPerm 7 5 := rfl
example : (orderPerm 3 4).length = 4 := rfl

/-! ### Concrete instantiations used by witnesses -/

/-- A concrete environment for closed witness statements. -/
def env₀ : Env :=
  { sha256 := fun _ => "d0", gunzip := fun s => s, zstdDecompress := fun s => s,
    zstdAvailable := true, parseCsv := fun _ => [] }

/-! ### Helper lemmas for the sort and the string order -/

theorem lexLe_cons (a b : Char) (s t : List Char) :
    lexLe (a :: s) (b :: t) = true ↔
      a.toNat < b.toNat ∨ (a.toNat = b.toNat ∧ lexLe s t = true) := by
  simp only [lexLe]
  split_ifs with h1 h2
  · simp only [true_iff]
    exact Or.inl h1
  · simp only [Bool.false_eq_true, false_iff]
    rintro (h | ⟨h, _⟩) <;> omega
  · constructor
    · intro h
      exact Or.inr ⟨by omega, h⟩
    · rintro (h | ⟨_, h⟩)
      · omega
      · exact h

theorem lexLe_total : ∀ s t : List Char, lexLe s t = true ∨ lexLe t s = true
  | [], _ => Or.inl rfl
  | _ :: _, [] => Or.inr rfl
  | a :: s, b :: t => by
    rcases Nat.lt_trichotomy a.toNat b.toNat with h | h | h
    · exact Or.inl ((lexLe_cons a b s t).2 (Or.inl h))
    · rcases lexLe_total s t with hs | hs
      · exact Or.inl ((lexLe_cons a b s t).2 (Or.inr ⟨h, hs⟩))
      · exact Or.inr ((lexLe_cons b a t s).2 (Or.inr ⟨h.symm, hs⟩))
    · exact Or.inr ((lexLe_cons b a t s).2 (Or.inl h))

theorem lexLe_trans : ∀ s t u : List Char,
    lexLe s t = true → lexLe t u = true → lexLe s u = true
  | [], _, _, _, _ => rfl
  | _ :: _, [], _, h, _ => by simp [lexLe] at h
  | _ :: _, _ :: _, [], _, h => by simp [lexLe] at h
  | a :: s, b :: t, c :: u, h1, h2 => by
    rcases (lexLe_cons a b s t).1 h1 with hab | ⟨hab, hst⟩ <;>
      rcases (lexLe_cons b c t u).1 h2 with hbc | ⟨hbc, htu⟩
    · exact (lexLe_cons a c s u).2 (Or.inl (Nat.lt_trans hab hbc))
    · exact (lexLe_cons a c s u).2 (Or.inl (hbc ▸ hab))
    · exact (lexLe_cons a c s u).2 (Or.inl (hab ▸ hbc))
    · exact (lexLe_cons a c s u).2
        (Or.inr ⟨hab.trans hbc, lexLe_trans s t u hst htu⟩)

theorem char_eq_of_toNat_eq {a b : Char} (h : a.toNat = b.toNat) : a = b := by
  cases a with
  | mk va ha =>
    cases b with
    | mk vb hb =>
      have : va = vb := UInt32.ext h
      subst this
      rfl

theorem lexLe_antisymm : ∀ s t : List Char,
    lexLe s t = true → lexLe t s = true → s = t
  | [], [], _, _ => rfl
  | [], _ :: _, _, h => by simp [lexLe] at h
  | _ :: _, [], h, _ => by simp [lexLe] at h
  | a :: s, b :: t, h1, h2 => by
    rcases (lexLe_cons a b s t).1 h1 with hab | ⟨hab, hst⟩ <;>
      rcases (lexLe_cons b a t s).1 h2 with hba | ⟨hba, hts⟩
    · omega
    · omega
    · omega
    · have : a = b := char_eq_of_toNat_eq hab
      rw [this, lexLe_antisymm s t hst hts]

theorem strLe_total (a b : String) : strLe a b = true ∨ strLe b a = true :=
  lexLe_total a.toList b.toList

theorem strLe_trans {a b c : String} (h1 : strLe a b = true)
    (h2 : strLe b c = true) : strLe a c = true :=
  lexLe_trans a.toList b.toList c.toList h1 h2

theorem str_eq_of_toList_eq {a b : String} (h : a.toList = b.toList) : a = b := by
  cases a
  cases b
  exact congrArg String.mk (by simpa [String.toList] using h)

theorem strLe_antisymm {a b : String} (h1 : strLe a b = true)
    (h2 : strLe b a = true) : a = b :=
  str_eq_of_toList_eq (lexLe_antisymm a.toList b.toList h1 h2)

theorem insertLe_perm {α : Type} (le : α → α → Bool) (a : α) (l : List α) :
    (insertLe le a l).Perm (a :: l) := by
  induction l with
  | nil => exact List.Perm.refl _
  | cons b t ih =>
    by_cases h : le a b
    · simp [insertLe, h]
    · simp only [insertLe, h, if_neg, Bool.false_eq_true, not_false_iff]
      exact (ih.cons b).trans (List.Perm.swap a b t)

theorem sortByLe_perm {α : Type} (le : α → α → Bool) (l : List α) :
    (sortByLe le l).Perm l := by
  induction l with
  | nil => exact List.Perm.refl _
  | cons a t ih => exact (insertLe_perm le a (sortByLe le t)).trans (ih.cons a)

theorem mem_insertLe {α : Type} {le : α → α → Bool} {a x : α} {l : List α} :
    x ∈ insertLe le a l ↔ x = a ∨ x ∈ l := by
  rw [(insertLe_perm le a l).mem_iff]
  simp

theorem insertLe_pairwise {α : Type} {le : α → α → Bool}
    (htrans : ∀ a b c, le a b = true → le b c = true → le a c = true)
    (htotal : ∀ a b, le a b = true ∨ le b a = true) (a : α) (l : List α)
    (hl : l.Pairwise (fun x y => le x y = true)) :
    (insertLe le a l).Pairwise (fun x y => le x y = true) := by
  induction l with
  | nil => simp [insertLe]
  | cons b t ih =>
    rcases List.pairwise_cons.1 hl with ⟨hb, ht⟩
    by_cases h : le a b = true
    · simp only [insertLe, h, if_pos]
      refine List.pairwise_cons.2 ⟨?_, hl⟩
      intro x hx
      rcases List.mem_cons.1 hx with rfl | hx'
      · exact h
      · exact htrans a b x h (hb x hx')
    · have hba : le b a = true := (htotal a b).resolve_left h
      simp only [insertLe, h, if_neg, Bool.false_eq_true, not_false_iff]
      refine List.pairwise_cons.2 ⟨?_, ih ht⟩
      intro x hx
      rcases mem_insertLe.1 hx with rfl | hx'
      · exact hba
      · exact hb x hx'

theorem sortByLe_pairwise {α : Type} {le : α → α → Bool}
    (htrans : ∀ a b c, le a b = true → le b c = true → le a c = true)
    (htotal : ∀ a b, le a b = true ∨ le b a = true) (l : List α) :
    (sortByLe le l).Pairwise (fun x y => le x y = true) := by
  induction l with
  | nil => simp [sortByLe]
  | cons a t ih => exact insertLe_pairwise htrans htotal a _ ih

/-- Two sorted lists that are permutations of one another are equal,
for an antisymmetric comparator. -/
theorem sorted_perm_eq {α : Type} {le : α → α → Bool}
    (hanti : ∀ a b, le a b = true → le b a = true → a = b) :
    ∀ {l₁ l₂ : List α}, l₁.Perm l₂ →
      l₁.Pairwise (fun x y => le x y = true) →
      l₂.Pairwise (fun x y => le x y = true) → l₁ = l₂ := by
  intro l₁ l₂ hperm h₁ h₂
  haveI : IsAntisymm α (fun x y => le x y = true) :=
    ⟨fun _ _ h h' => hanti _ _ h h'⟩
  exact List.eq_of_perm_of_sorted hperm h₁ h₂

/-! ### Helper lemmas for the validator -/

theorem checkRows_ok_iff (k idx : Nat) (rows : List (List String)) :
    checkRows k idx rows = .ok () ↔ ∀ r ∈ rows, r.length = k := by
  induction rows generalizing idx with
  | nil => simp [checkRows]
  | cons r rest ih =>
    by_cases h : r.length = k
    · simp [checkRows, h, ih]
    · simp [checkRows, h]

theorem checkRows_first_error (k idx i : Nat) (rows : List (List String))
    (hi : i < rows.length)
    (hpre : ∀ j, j < i → (rows.getD j []).length = k)
    (hbad : (rows.getD i []).length ≠ k) :
    checkRows k idx rows = .error (.rowShape (idx + i) (rows.getD i []).length k) := by
  induction rows generalizing i idx with
  | nil => exact absurd hi (by simp)
  | cons r rest ih =>
    cases i with
    | zero =>
      simp only [List.getD_cons_zero] at hbad ⊢
      simp [checkRows, hbad]
    | succ i' =>
      have hr : r.length = k := by
        have := hpre 0 (Nat.succ_pos i')
        simpa using this
      have step : checkRows k (idx + 1) rest =
          .error (.rowShape (idx + 1 + i') (rest.getD i' []).length k) := by
        refine ih (idx + 1) i' (by simpa using hi) ?_ ?_
        · intro j hj
          have := hpre (j + 1) (Nat.succ_lt_succ hj)
          simpa using this
        · simpa using hbad
      have harr : idx + 1 + i' = idx + (i' + 1) := by omega
      simp only [List.getD_cons_succ]
      simp [checkRows, hr, harr ▸ step]

/-! ### Claim theorems -/

/-- C1: all-or-nothing packaging.  A failing pipeline run — any
`return None` path of `_download_prepared_dataset`, or the uncaught
`shutil.SameFileError` crash of the plain-csv `copy2` (the
`sameFileCrash` error) — leaves no archive and no companion files; a
successful run produces the archive together with both companions (the
attachments placeholder and the order file). -/
theorem all_or_nothing (env : Env) (fetch : String → Option String)
    (dataset : String) (resp : Except String Payload) (seed : Nat) :
    (∀ e, downloadPrepared env fetch dataset resp = .error e →
        runMain env fetch dataset resp seed =
          { archive := none, attachments := false, orderFile := none }) ∧
    (∀ added, downloadPrepared env fetch dataset resp = .ok added →
        runMain env fetch dataset resp seed =
          { archive := some added, attachments := true,
            orderFile := some (orderPerm seed added.length) }) := by
  constructor
  · intro e he
    simp [runMain, he]
  · intro added hadded
    simp [runMain, hadded]

/-- Listing payload naming a plain lowercase `demo.csv`: the program
crashes on it in `shutil.copy2` (source and target are the same path). -/
def payloadCsv : Payload :=
  .list [{ itemType := "file", name := "demo.csv", downloadUrl := some "u1" }]

/-- Fetch for the plain-csv crash scenario. -/
def fetchCsv : String → Option String := fun u =>
  if u = "u1" then some "a,b\n1,2\n" else none

/-- Witness for C1: a failing listing leaves all three outputs
unwritten, and so does the `SameFileError` crash on a plain lowercase
`demo.csv`. -/
theorem all_or_nothing_witness :
    runMain env₀ (fun _ => none) "demo" (.error "boom") 7 =
      { archive := none, attachments := false, orderFile := none } ∧
    downloadPrepared env₀ fetchCsv "demo" (.ok payloadCsv) =
      .error (.sameFileCrash "demo.csv") ∧
    runMain env₀ fetchCsv "demo" (.ok payloadCsv) 7 =
      { archive := none, attachments := false, orderFile := none } :=
  ⟨(all_or_nothing env₀ (fun _ => none) "demo" (.error "boom") 7).1
    (.listing "boom") rfl,
   rfl,
   (all_or_nothing env₀ fetchCsv "demo" (.ok payloadCsv) 7).1
    (.sameFileCrash "demo.csv") rfl⟩

/-- C2: the format resolver evaluates the fixed preference order,
stopping at the first match: (1) the first member ending in `.csv` and
not `.csv.gz` as `plain`; (2) otherwise the first member ending in
`.csv.gz` as `gzip`; (3) otherwise the first member ending in
`.csv.zst` as `zstd`; (4) otherwise the members containing the
multipart marker as `zstd_multipart`; (5) otherwise the group's first
member as an opaque fallback. -/
theorem resolver_preference_order (ms : List String) :
    (∀ p, ms.find? isPlainCsv = some p → resolveGroup ms = .csvFile p) ∧
    (ms.find? isPlainCsv = none →
      ∀ p, ms.find? isGzName = some p → resolveGroup ms = .gzFile p) ∧
    (ms.find? isPlainCsv = none → ms.find? isGzName = none →
      ∀ p, ms.find? isZstName = some p → resolveGroup ms = .zstFile p) ∧
    (ms.find? isPlainCsv = none → ms.find? isGzName = none →
      ms.find? isZstName = none → ms.filter isPartName ≠ [] →
      resolveGroup ms = .zstParts (ms.filter isPartName)) ∧
    (ms.find? isPlainCsv = none → ms.find? isGzName = none →
      ms.find? isZstName = none → ms.filter isPartName = [] →
      resolveGroup ms = .fallback (ms.headD "")) := by
  refine ⟨?_, ?_, ?_, ?_, ?_⟩
  · intro p hp; simp [resolveGroup, hp]
  · intro h1 p hp; simp [resolveGroup, h1, hp]
  · intro h1 h2 p hp; simp [resolveGroup, h1, h2, hp]
  · intro h1 h2 h3 h4; simp [resolveGroup, h1, h2, h3, h4]
  · intro h1 h2 h3 h4; simp [resolveGroup, h1, h2, h3, h4]

/-- Witness for C2: with both a `.csv.gz` and a `.csv` member present,
the `.csv` member is chosen as plain even though it is listed second. -/
theorem resolver_preference_order_witness :
    resolveGroup ["b.csv.gz", "b.csv"] = .csvFile "b.csv" :=
  (resolver_preference_order ["b.csv.gz", "b.csv"]).1 "b.csv" rfl

/-- C3 (counterexample): a non-list payload does not raise a listing
error — `_list_prepared_files` returns the empty list and the run then
fails with the distinct "no files found" condition. -/
theorem catalog_nonlist_counterexample :
    listPreparedFiles "demo" (.ok Payload.nonList) = .ok [] ∧
    downloadPrepared env₀ (fun _ => none) "demo" (.ok Payload.nonList) =
      .error (.noFiles "demo") :=
  ⟨rfl, rfl⟩

/-- C3 (amended): if the listing endpoint returns a payload that is not
a list, the listing operation returns the empty sequence (not an
error), and the caller reports the distinct "no files found" failure;
only transport failures of the listing request are raised as listing
errors. -/
theorem catalog_nonlist_amended (env : Env) (fetch : String → Option String)
    (dataset : String) :
    listPreparedFiles dataset (.ok Payload.nonList) = .ok [] ∧
    downloadPrepared env fetch dataset (.ok Payload.nonList) =
      .error (.noFiles dataset) ∧
    (∀ msg, downloadPrepared env fetch dataset (.error msg) =
      .error (.listing msg)) :=
  ⟨rfl, rfl, fun _ => rfl⟩

/-- C8: for a non-empty CSV file with a `k ≥ 1`-column header,
validation fails exactly when some data row's column count differs from
`k`; the first such row (the `i`-th data row, 0-based) is reported as
row `i + 2` — the first data row being row 2 — together with the
observed and expected column counts, in the message
`Row {idx} has {obs} columns (expected {exp}).`. -/
theorem row_shape_validation (header : List String) (rows : List (List String))
    (hk : 1 ≤ header.length) :
    ((∃ e, validateRows (header :: rows) = .error e) ↔
      ∃ r ∈ rows, r.length ≠ header.length) ∧
    (∀ i, i < rows.length →
      (∀ j, j < i → (rows.getD j []).length = header.length) →
      (rows.getD i []).length ≠ header.length →
      validateRows (header :: rows) =
        .error (.rowShape (i + 2) (rows.getD i []).length header.length)) ∧
    (∀ idx obs exp, valMessage (.rowShape idx obs exp) =
      "Row " ++ toString idx ++ " has " ++ toString obs ++
        " columns (expected " ++ toString exp ++ ").") := by
  have hk0 : header.length ≠ 0 := by omega
  refine ⟨?_, ?_, fun idx obs exp => rfl⟩
  · rw [show validateRows (header :: rows) = checkRows header.length 2 rows by
      simp [validateRows, hk0]]
    constructor
    · rintro ⟨e, he⟩
      by_contra hall
      push_neg at hall
      have : checkRows header.length 2 rows = .ok () :=
        (checkRows_ok_iff _ _ _).2 hall
      rw [this] at he
      exact Except.noConfusion he
    · rintro ⟨r, hr, hlen⟩
      cases hres : checkRows header.length 2 rows with
      | error e => exact ⟨e, rfl⟩
      | ok u =>
        cases u
        exact absurd ((checkRows_ok_iff _ _ _).1 hres r hr) hlen
  · intro i hi hpre hbad
    have := checkRows_first_error header.length 2 i rows hi hpre hbad
    rw [show (2 : Nat) + i = i + 2 by omega] at this
    simp [validateRows, hk0, this]

/-- Witness for C8: a two-column header whose second data row (file row
3) has one field fails naming row 3 with observed 1 and expected 2. -/
theorem row_shape_validation_witness :
    validateRows [["a", "b"], ["1", "2"], ["3"]] =
      .error (.rowShape 3 1 2) := by
  have h := (row_shape_validation ["a", "b"] [["1", "2"], ["3"]]
    (by decide)).2.1 1 (by decide) (by decide) (by decide)
  simpa using h

theorem collectParts_eq_join (dl : String → Option String)
    (bytes : String → String) (l : List String)
    (hb : ∀ p ∈ l, dl p = some (bytes p)) :
    collectParts dl l = .ok (strJoin (l.map bytes)) := by
  induction l with
  | nil => rfl
  | cons n rest ih =>
    have hn := hb n (List.mem_cons_self n rest)
    have hrest := ih (fun p hp => hb p (List.mem_cons_of_mem n hp))
    simp [collectParts, hn, hrest, strJoin]

theorem resolveGroup_zstFile_find {ms : List String} {src : String}
    (h : resolveGroup ms = .zstFile src) : ms.find? isZstName = some src := by
  unfold resolveGroup at h
  cases hf1 : ms.find? isPlainCsv with
  | some p => rw [hf1] at h; simp at h
  | none =>
    rw [hf1] at h
    cases hf2 : ms.find? isGzName with
    | some p => rw [hf2] at h; simp at h
    | none =>
      rw [hf2] at h
      cases hf3 : ms.find? isZstName with
      | some p => rw [hf3] at h; simp at h; rw [h]
      | none =>
        rw [hf3] at h
        by_cases hp : ms.filter isPartName = [] <;> simp [hp] at h

theorem resolveGroup_zstParts_eq {ms ps : List String}
    (h : resolveGroup ms = .zstParts ps) : ps = ms.filter isPartName := by
  unfold resolveGroup at h
  cases hf1 : ms.find? isPlainCsv with
  | some p => rw [hf1] at h; simp at h
  | none =>
    rw [hf1] at h
    cases hf2 : ms.find? isGzName with
    | some p => rw [hf2] at h; simp at h
    | none =>
      rw [hf2] at h
      cases hf3 : ms.find? isZstName with
      | some p => rw [hf3] at h; simp at h
      | none =>
        rw [hf3] at h
        by_cases hp : ms.filter isPartName = []
        · simp [hp] at h
        · simp [hp] at h; exact h.symm

theorem insertGroup_members_pred {P : String → Prop} :
    ∀ (acc : List (String × List String)) (b n : String),
      (∀ g ∈ acc, ∀ m ∈ g.2, P m) → P n →
      ∀ g ∈ insertGroup acc b n, ∀ m ∈ g.2, P m := by
  intro acc
  induction acc with
  | nil =>
    intro b n _ hn g hg m hm
    simp only [insertGroup, List.mem_singleton] at hg
    subst hg
    simp only [List.mem_singleton] at hm
    subst hm
    exact hn
  | cons hd tl ih =>
    intro b n hacc hn g hg m hm
    obtain ⟨b', ms'⟩ := hd
    simp only [insertGroup] at hg
    by_cases hb : b' = b
    · rw [if_pos hb] at hg
      rcases List.mem_cons.1 hg with rfl | hg'
      · rcases List.mem_append.1 hm with hm' | hm'
        · exact hacc (b', ms') (List.mem_cons_self _ _) m hm'
        · simp only [List.mem_singleton] at hm'
          subst hm'
          exact hn
      · exact hacc g (List.mem_cons_of_mem _ hg') m hm
    · rw [if_neg hb] at hg
      rcases List.mem_cons.1 hg with rfl | hg'
      · exact hacc (b', ms') (List.mem_cons_self _ _) m hm
      · exact ih b n (fun g' h' => hacc g' (List.mem_cons_of_mem _ h')) hn g hg' m hm

theorem foldl_groups_pred {P : String → Prop} :
    ∀ (l : List String) (acc : List (String × List String)),
      (∀ g ∈ acc, ∀ m ∈ g.2, P m) → (∀ n ∈ l, P n) →
      ∀ g ∈ l.foldl (fun acc n => insertGroup acc (baseOf n) n) acc,
        ∀ m ∈ g.2, P m := by
  intro l
  induction l with
  | nil =>
    intro acc hacc _ g hg
    exact hacc g hg
  | cons n t ih =>
    intro acc hacc hl g hg
    simp only [List.foldl_cons] at hg
    exact ih _
      (insertGroup_members_pred acc (baseOf n) n hacc (hl n (List.mem_cons_self _ _)))
      (fun x hx => hl x (List.mem_cons_of_mem _ hx)) g hg

/-- Every member of a group built by the grouping loop is one of the
input names. -/
theorem groupEntries_members (names : List String) :
    ∀ g ∈ groupEntries names, ∀ m ∈ g.2, m ∈ names :=
  foldl_groups_pred (P := fun m => m ∈ names) names [] (by simp) (fun _ h => h)

theorem processGroups_ok_mem (env : Env) (dl : String → Option String) :
    ∀ (groups : List (String × List String)) (res : List (String × String)),
      processGroups env dl groups = .ok res →
      ∀ g ∈ groups, ∃ r, processGroup env dl g.1 g.2 = .ok r := by
  intro groups
  induction groups with
  | nil =>
    intro res _ g hg
    simp at hg
  | cons hd tl ih =>
    intro res h g hg
    obtain ⟨b, ms⟩ := hd
    simp only [processGroups] at h
    cases hp : processGroup env dl b ms with
    | error e => rw [hp] at h; exact absurd h (by simp)
    | ok f =>
      rw [hp] at h
      cases hps : processGroups env dl tl with
      | error e => rw [hps] at h; exact absurd h (by simp)
      | ok fs =>
        rcases List.mem_cons.1 hg with rfl | hg'
        · exact ⟨f, hp⟩
        · exact ih fs hps g hg'

theorem collectParts_ok (dl : String → Option String) :
    ∀ l : List String, (∀ p ∈ l, (dl p).isSome) →
      ∃ c, collectParts dl l = .ok c := by
  intro l
  induction l with
  | nil => exact fun _ => ⟨"", rfl⟩
  | cons n rest ih =>
    intro h
    obtain ⟨b, hb⟩ := Option.isSome_iff_exists.1 (h n (List.mem_cons_self _ _))
    obtain ⟨c, hc⟩ := ih (fun p hp => h p (List.mem_cons_of_mem _ hp))
    exact ⟨b ++ c, by simp [collectParts, hb, hc]⟩

/-- C4: for a group resolved as `zst_parts`, the parts are concatenated
in sorted filename order (whatever order they were discovered in), the
digest is computed over the fully reassembled stream and compared
against the checksum token, and decompression is applied only when that
comparison succeeds — a mismatch aborts with a checksum error before
any decoding. -/
theorem multipart_order_of_operations
    (env : Env) (dl : String → Option String) (base : String)
    (ms ps : List String) (bytes : String → String)
    (hres : resolveGroup ms = .zstParts ps)
    (hbytes : ∀ p ∈ ps, dl p = some (bytes p))
    (shaC expected : String)
    (hsha : dl (base ++ ".csv.zst.sha256") = some shaC)
    (hread : readSha256 shaC = .ok expected) :
    (env.sha256 (strJoin ((sortByLe strLe ps).map bytes)) = expected →
      env.zstdAvailable = true →
      processGroup env dl base ms =
        .ok (base ++ ".csv",
          env.zstdDecompress (strJoin ((sortByLe strLe ps).map bytes)))) ∧
    (env.sha256 (strJoin ((sortByLe strLe ps).map bytes)) ≠ expected →
      processGroup env dl base ms =
        .error (.checksumFailed (base ++ ".csv.zst")
          ("SHA256 mismatch (expected " ++ expected ++ ", got " ++
            env.sha256 (strJoin ((sortByLe strLe ps).map bytes)) ++ ")."))) := by
  have hbs : ∀ p ∈ sortByLe strLe ps, dl p = some (bytes p) := by
    intro p hp
    exact hbytes p ((sortByLe_perm strLe ps).mem_iff.1 hp)
  have hcol := collectParts_eq_join dl bytes (sortByLe strLe ps) hbs
  constructor
  · intro hdig hz
    simp [processGroup, hres, hcol, hsha, verifySha256, hread, hdig, hz]
  · intro hdig
    simp [processGroup, hres, hcol, hsha, verifySha256, hread, hdig]

/-- Environment for the C4 witness: the digest of the correctly
reassembled stream `"AB"` is `"h1"`; decompression is the identity. -/
def envW : Env :=
  { sha256 := fun s => if s = "AB" then "h1" else "h0",
    gunzip := fun s => s, zstdDecompress := fun s => s,
    zstdAvailable := true, parseCsv := fun _ => [] }

/-- Downloads for the C4 witness: parts discovered as `part002` then
`part001`, with contents `"B"` and `"A"`, plus the reassembled
checksum file. -/
def dlW : String → Option String := fun n =>
  if n = "x.csv.zst.part001" then some "A"
  else if n = "x.csv.zst.part002" then some "B"
  else if n = "x.csv.zst.sha256" then some "h1"
  else none

/-- Witness for C4: parts discovered as `part002`, `part001` are
reassembled as `part001 ++ part002 = "AB"`, verified, and decoded. -/
theorem multipart_order_of_operations_witness :
    processGroup envW dlW "x" ["x.csv.zst.part002", "x.csv.zst.part001"] =
      .ok ("x.csv", "AB") := by
  have h := (multipart_order_of_operations envW dlW "x"
      ["x.csv.zst.part002", "x.csv.zst.part001"]
      ["x.csv.zst.part002", "x.csv.zst.part001"]
      (fun n => if n = "x.csv.zst.part001" then "A" else "B")
      rfl (by decide) "h1" "h1" rfl rfl).1 rfl rfl
  simpa using h

/-- C5: a group resolved as `zstd` (or `zstd_multipart`) whose required
`.sha256` companion was not among the downloaded files makes the group
fail with a missing-checksum error whose message names that checksum
file, the whole run fail, and no archive (nor companion file) to be
written. -/
theorem missing_checksum_aborts
    (env : Env) (fetch : String → Option String) (dataset : String)
    (payload : Payload) (seed : Nat) (dlList : List (String × String))
    (hfetch : fetchAllEntries fetch (entriesOfPayload dataset payload) = .ok dlList)
    (base : String) (ms : List String) (shaName srcName : String)
    (hmem : (base, ms) ∈
      sortGroups (groupEntries (dataNames (entriesOfPayload dataset payload) dlList)))
    (hres : (∃ src, resolveGroup ms = .zstFile src ∧
              shaName = src ++ ".sha256" ∧ srcName = src) ∨
            (∃ ps, resolveGroup ms = .zstParts ps ∧
              shaName = base ++ ".csv.zst.sha256" ∧ srcName = base ++ ".csv.zst"))
    (hnosha : lookupDl dlList shaName = none) :
    processGroup env (lookupDl dlList) base ms =
      .error (.missingChecksum shaName srcName) ∧
    runErrMessage (.missingChecksum shaName srcName) =
      "Error: missing checksum file " ++ shaName ++ " for " ++ srcName ++ "." ∧
    (∃ e, downloadPrepared env fetch dataset (.ok payload) = .error e) ∧
    runMain env fetch dataset (.ok payload) seed =
      { archive := none, attachments := false, orderFile := none } := by
  have hmem' : (base, ms) ∈
      groupEntries (dataNames (entriesOfPayload dataset payload) dlList) :=
    (sortByLe_perm _ _).mem_iff.1 hmem
  have hsub : ∀ m ∈ ms, m ∈ dataNames (entriesOfPayload dataset payload) dlList :=
    fun m hm => groupEntries_members _ _ hmem' m hm
  have hdlsome : ∀ m ∈ ms, (lookupDl dlList m).isSome := by
    intro m hm
    have h := hsub m hm
    simp only [dataNames, List.mem_filter] at h
    exact h.2
  have hpg : processGroup env (lookupDl dlList) base ms =
      .error (.missingChecksum shaName srcName) := by
    rcases hres with ⟨src, hsrc, rfl, rfl⟩ | ⟨ps, hps, rfl, rfl⟩
    · have hfind := resolveGroup_zstFile_find hsrc
      have hsrcmem := List.mem_of_find?_eq_some hfind
      obtain ⟨b, hb⟩ := Option.isSome_iff_exists.1 (hdlsome _ hsrcmem)
      simp [processGroup, hsrc, hb, hnosha]
    · have hpseq := resolveGroup_zstParts_eq hps
      have hpssub : ∀ p ∈ sortByLe strLe ps, (lookupDl dlList p).isSome := by
        intro p hp
        have hp' : p ∈ ps := (sortByLe_perm strLe ps).mem_iff.1 hp
        have hpm : p ∈ ms := by
          rw [hpseq] at hp'
          exact (List.mem_filter.1 hp').1
        exact hdlsome p hpm
      obtain ⟨c, hc⟩ := collectParts_ok _ _ hpssub
      simp [processGroup, hps, hc, hnosha]
  have hrun : ∃ e, downloadPrepared env fetch dataset (.ok payload) = .error e := by
    simp only [downloadPrepared, listPreparedFiles]
    by_cases hempty : (entriesOfPayload dataset payload).isEmpty
    · exact ⟨.noFiles dataset, by simp [downloadPreparedEntries, hempty]⟩
    · cases hpgs : processGroups env (lookupDl dlList)
          (sortGroups (groupEntries
            (dataNames (entriesOfPayload dataset payload) dlList))) with
      | error e =>
        exact ⟨e, by simp [downloadPreparedEntries, hempty, hfetch, hpgs]⟩
      | ok res =>
        exfalso
        obtain ⟨r, hr⟩ := processGroups_ok_mem env _ _ res hpgs (base, ms) hmem
        rw [hpg] at hr
        exact Except.noConfusion hr
  obtain ⟨e, he⟩ := hrun
  exact ⟨hpg, rfl, ⟨e, he⟩, by simp [runMain, he]⟩

theorem swapList_perm (l : List Nat) (i j : Nat) (hi : i < l.length)
    (hj : j < l.length) : (swapList l i j).Perm l := by
  rw [List.perm_iff_count]
  intro x
  have hgdi : l.getD i 0 = l[i] := List.getD_eq_getElem l 0 hi
  have hgdj : l.getD j 0 = l[j] := List.getD_eq_getElem l 0 hj
  have hj' : j < (l.set i (l.getD j 0)).length := by
    rw [List.length_set]
    exact hj
  have h1 := List.count_set (l.getD i 0) x (l.set i (l.getD j 0)) j hj'
  have h2 := List.count_set (l.getD j 0) x l i hi
  have helem : (l.set i (l.getD j 0))[j] = l[j] := by
    rw [List.getElem_set]
    split
    · exact hgdj
    · rfl
  have hple : (if (l[i] == x) = true then 1 else 0) ≤ List.count x l := by
    split
    · rename_i h
      have hx : x ∈ l := (beq_iff_eq.1 h) ▸ List.getElem_mem hi
      exact List.count_pos_iff.2 hx
    · exact Nat.zero_le _
  show List.count x ((l.set i (l.getD j 0)).set j (l.getD i 0)) = List.count x l
  rw [h1, helem, h2, hgdi, hgdj]
  omega

theorem shuffleSteps_perm (i : Nat) :
    ∀ (state : Nat) (l : List Nat), i < l.length →
      (shuffleSteps state i l).Perm l := by
  induction i with
  | zero =>
    intro state l _
    exact List.Perm.refl _
  | succ i' ih =>
    intro state l hi
    have hjlt : mtStep state % (i' + 2) < l.length :=
      Nat.lt_of_lt_of_le (Nat.mod_lt _ (by omega)) (by omega)
    have hswap := swapList_perm l (i' + 1) (mtStep state % (i' + 2)) hi hjlt
    have hlen : (swapList l (i' + 1) (mtStep state % (i' + 2))).length = l.length := by
      simp [swapList, List.length_set]
    have hi' : i' < (swapList l (i' + 1) (mtStep state % (i' + 2))).length := by
      rw [hlen]
      omega
    have hrec := ih (mtStep state) (swapList l (i' + 1) (mtStep state % (i' + 2))) hi'
    rw [shuffleSteps]
    exact hrec.trans hswap

theorem orderPerm_perm (seed n : Nat) :
    (orderPerm seed n).Perm (List.range' 1 n) := by
  unfold orderPerm
  cases n with
  | zero => exact List.Perm.refl _
  | succ m =>
    apply shuffleSteps_perm
    rw [List.length_range']
    omega

/-- C9: the order companion of a successful run packaging `N` files
holds a list that is a permutation of `1..N`, produced by the seeded
shuffle; the permutation is a function of `(seed, N)` alone, so two
runs with the same seed and the same `N` produce the same
permutation. -/
theorem order_file_reproducible (seed : Nat) :
    (∀ n, (orderPerm seed n).Perm (List.range' 1 n)) ∧
    (∀ seed' n n', seed' = seed → n' = n → orderPerm seed' n' = orderPerm seed n) ∧
    (∀ env fetch dataset resp added,
      downloadPrepared env fetch dataset resp = .ok added →
      (runMain env fetch dataset resp seed).orderFile =
        some (orderPerm seed added.length)) := by
  refine ⟨fun n => orderPerm_perm seed n, ?_, ?_⟩
  · rintro seed' n n' rfl rfl
    rfl
  · intro env fetch dataset resp added h
    simp [runMain, h]

/-- Listing payload for the end-to-end success witness: a single
`demo.csv.gz` data file.  (A plain lowercase `demo.csv` would crash the
program in `shutil.copy2` — see `processGroup` — so the success
scenario uses the gzip variant.) -/
def payloadOk : Payload :=
  .list [{ itemType := "file", name := "demo.csv.gz", downloadUrl := some "u1" }]

/-- Fetch function for the success witness. -/
def fetchOk : String → Option String :=
  fun u => if u = "u1" then some "a,b\n1,2\n" else none

/-- Environment for the success witness: the CSV parser returns a
two-column header and one matching data row. -/
def envOk : Env :=
  { sha256 := fun _ => "d0", gunzip := fun s => s, zstdDecompress := fun s => s,
    zstdAvailable := true, parseCsv := fun _ => [["a", "b"], ["1", "2"]] }

/-- Witness for C9: `order(seed=7, N=5)` is a permutation of `1..5` and
equals itself across runs; a successful one-file run writes the order
file for `N = 1`. -/
theorem order_file_reproducible_witness :
    (orderPerm 7 5).Perm (List.range' 1 5) ∧
    orderPerm 7 5 = orderPerm 7 5 ∧
    (runMain envOk fetchOk "demo" (.ok payloadOk) 7).orderFile = some [1] := by
  refine ⟨(order_file_reproducible 7).1 5,
    (order_file_reproducible 7).2.1 7 5 5 rfl rfl, ?_⟩
  have h := (order_file_reproducible 7).2.2 envOk fetchOk "demo" (.ok payloadOk)
    [("demo.csv", "a,b\n1,2\n")] rfl
  simpa using h

/-- Listing payload for the C5 witness: the spec's end-to-end scenario
with `demo.csv.zst` present but `demo.csv.zst.sha256` absent. -/
def payloadW : Payload :=
  .list [{ itemType := "file", name := "demo.csv.zst", downloadUrl := some "u1" }]

/-- Fetch function for the C5 witness. -/
def fetchW : String → Option String := fun u => if u = "u1" then some "Z" else none

/-- The format tag of a resolved representation. -/
inductive FormatTag where
  | plain
  | gzip
  | zstd
  | zstdMultipart
  | unrecognized
deriving DecidableEq, Repr

/-- The format a resolution outcome stands for. -/
def chosenFormat : Chosen → FormatTag
  | .csvFile _ => .plain
  | .gzFile _ => .gzip
  | .zstFile _ => .zstd
  | .zstParts _ => .zstdMultipart
  | .fallback _ => .unrecognized

/-- The source files the pipeline reads for a resolution outcome, in
the order it reads them (multipart parts are consumed in sorted
filename order, line 269). -/
def chosenSources : Chosen → List String
  | .csvFile p => [p]
  | .gzFile p => [p]
  | .zstFile p => [p]
  | .zstParts ps => sortByLe strLe ps
  | .fallback p => [p]

theorem any_eq_of_perm {α : Type} {l₁ l₂ : List α} (h : l₁.Perm l₂)
    (p : α → Bool) : l₁.any p = l₂.any p := by
  cases h1 : l₁.any p <;> cases h2 : l₂.any p <;> try rfl
  · rw [List.any_eq_false] at h1
    rw [List.any_eq_true] at h2
    obtain ⟨x, hx, hpx⟩ := h2
    exact absurd hpx (h1 x (h.mem_iff.2 hx))
  · rw [List.any_eq_true] at h1
    rw [List.any_eq_false] at h2
    obtain ⟨x, hx, hpx⟩ := h1
    exact absurd hpx (h2 x (h.mem_iff.1 hx))

theorem find?_eq_of_perm_unique {α : Type} {l₁ l₂ : List α} (h : l₁.Perm l₂)
    (p : α → Bool)
    (huniq : ∀ a ∈ l₁, ∀ b ∈ l₁, p a = true → p b = true → a = b) :
    l₁.find? p = l₂.find? p := by
  cases h1 : l₁.find? p with
  | none =>
    cases h2 : l₂.find? p with
    | none => rfl
    | some b =>
      have pb := List.find?_some h2
      have hb : b ∈ l₁ := h.mem_iff.2 (List.mem_of_find?_eq_some h2)
      exact absurd pb (List.find?_eq_none.1 h1 b hb)
  | some a =>
    have pa := List.find?_some h1
    have ha : a ∈ l₁ := List.mem_of_find?_eq_some h1
    cases h2 : l₂.find? p with
    | none =>
      exact absurd pa (List.find?_eq_none.1 h2 a (h.mem_iff.1 ha))
    | some b =>
      have pb := List.find?_some h2
      have hb : b ∈ l₁ := h.mem_iff.2 (List.mem_of_find?_eq_some h2)
      rw [huniq a ha b hb pa pb]

/-- C6 (counterexample): two variant groups with the same member set in
two discovery orders resolve to the same format but different chosen
sources — two distinct names that differ only in letter case both match
the plain-`.csv` predicate, and the resolver takes whichever comes
first. -/
theorem resolver_order_dependent_counterexample :
    (["x.csv", "x.CSV"] : List String).Perm ["x.CSV", "x.csv"] ∧
    baseOf "x.csv" = baseOf "x.CSV" ∧
    chosenFormat (resolveGroup ["x.csv", "x.CSV"]) =
      chosenFormat (resolveGroup ["x.CSV", "x.csv"]) ∧
    chosenSources (resolveGroup ["x.csv", "x.CSV"]) ≠
      chosenSources (resolveGroup ["x.CSV", "x.csv"]) := by
  refine ⟨by decide, rfl, rfl, by decide⟩

/-- C6 (amended): for two variant groups with the same set of members
(in any two orders), the resolved format is always the same; the chosen
source files are also the same provided no two distinct members satisfy
the same single-file preference predicate and no two distinct members
are both unrecognized (names differing only in letter case are the way
this can fail), multipart source lists being compared in the consumed
(sorted) order. -/
theorem resolver_determinism (ms₁ ms₂ : List String) (hperm : ms₁.Perm ms₂) :
    chosenFormat (resolveGroup ms₁) = chosenFormat (resolveGroup ms₂) ∧
    ((∀ a ∈ ms₁, ∀ b ∈ ms₁, isPlainCsv a = true → isPlainCsv b = true → a = b) →
     (∀ a ∈ ms₁, ∀ b ∈ ms₁, isGzName a = true → isGzName b = true → a = b) →
     (∀ a ∈ ms₁, ∀ b ∈ ms₁, isZstName a = true → isZstName b = true → a = b) →
     (∀ a ∈ ms₁, ∀ b ∈ ms₁,
        isPlainCsv a = false → isGzName a = false → isZstName a = false →
        isPartName a = false →
        isPlainCsv b = false → isGzName b = false → isZstName b = false →
        isPartName b = false → a = b) →
     chosenSources (resolveGroup ms₁) = chosenSources (resolveGroup ms₂)) := by
  constructor
  · unfold resolveGroup
    cases hf1 : ms₁.find? isPlainCsv with
    | some p =>
      have : ms₂.any isPlainCsv = true := by
        rw [← any_eq_of_perm hperm]
        exact List.any_eq_true.2 ⟨p, List.mem_of_find?_eq_some hf1, List.find?_some hf1⟩
      obtain ⟨q, hq, hpq⟩ := List.any_eq_true.1 this
      obtain ⟨r, hr⟩ := Option.isSome_iff_exists.1
        (List.find?_isSome.2 ⟨q, hq, hpq⟩)
      rw [hr]
      rfl
    | none =>
      have hn1 : ms₂.find? isPlainCsv = none := by
        rw [List.find?_eq_none] at hf1 ⊢
        intro x hx
        exact hf1 x (hperm.mem_iff.2 hx)
      rw [hn1]
      cases hf2 : ms₁.find? isGzName with
      | some p =>
        obtain ⟨r, hr⟩ := Option.isSome_iff_exists.1 (List.find?_isSome.2
          ⟨p, hperm.mem_iff.1 (List.mem_of_find?_eq_some hf2), List.find?_some hf2⟩)
        rw [hr]
        rfl
      | none =>
        have hn2 : ms₂.find? isGzName = none := by
          rw [List.find?_eq_none] at hf2 ⊢
          intro x hx
          exact hf2 x (hperm.mem_iff.2 hx)
        rw [hn2]
        cases hf3 : ms₁.find? isZstName with
        | some p =>
          obtain ⟨r, hr⟩ := Option.isSome_iff_exists.1 (List.find?_isSome.2
            ⟨p, hperm.mem_iff.1 (List.mem_of_find?_eq_some hf3), List.find?_some hf3⟩)
          rw [hr]
          rfl
        | none =>
          have hn3 : ms₂.find? isZstName = none := by
            rw [List.find?_eq_none] at hf3 ⊢
            intro x hx
            exact hf3 x (hperm.mem_iff.2 hx)
          rw [hn3]
          by_cases hp : ms₁.filter isPartName = []
          · have hp2 : ms₂.filter isPartName = [] := by
              rw [List.filter_eq_nil_iff] at hp ⊢
              intro x hx
              exact hp x (hperm.mem_iff.2 hx)
            simp [hp, hp2, chosenFormat]
          · have hp2 : ms₂.filter isPartName ≠ [] := by
              intro hc
              rw [List.filter_eq_nil_iff] at hc
              refine hp (List.filter_eq_nil_iff.2 ?_)
              intro x hx
              exact hc x (hperm.mem_iff.1 hx)
            simp [hp, hp2, chosenFormat]
  · intro hu1 hu2 hu3 hu4
    have hall : ∀ (p : String → Bool),
        (∀ a ∈ ms₁, ∀ b ∈ ms₁, p a = true → p b = true → a = b) →
        ms₁.find? p = ms₂.find? p :=
      fun p h => find?_eq_of_perm_unique hperm p h
    unfold resolveGroup
    rw [← hall isPlainCsv hu1, ← hall isGzName hu2, ← hall isZstName hu3]
    cases hf1 : ms₁.find? isPlainCsv with
    | some p => rfl
    | none =>
      cases hf2 : ms₁.find? isGzName with
      | some p => rfl
      | none =>
        cases hf3 : ms₁.find? isZstName with
        | some p => rfl
        | none =>
          have hfilterperm : (ms₁.filter isPartName).Perm (ms₂.filter isPartName) :=
            hperm.filter isPartName
          by_cases hp : ms₁.filter isPartName = []
          · have hp2 : ms₂.filter isPartName = [] := by
              rw [hp] at hfilterperm
              exact hfilterperm.symm.eq_nil
            simp only [hp, hp2, ne_eq, not_true_eq_false, if_false, ite_false]
            simp only [chosenSources]
            -- fallback: every member is unrecognized, so there is at
            -- most one member up to equality and the heads agree
            have hunrec : ∀ x ∈ ms₁, isPlainCsv x = false ∧ isGzName x = false ∧
                isZstName x = false ∧ isPartName x = false := by
              intro x hx
              refine ⟨?_, ?_, ?_, ?_⟩
              · exact Bool.eq_false_iff.2 (List.find?_eq_none.1 hf1 x hx)
              · exact Bool.eq_false_iff.2 (List.find?_eq_none.1 hf2 x hx)
              · exact Bool.eq_false_iff.2 (List.find?_eq_none.1 hf3 x hx)
              · exact Bool.eq_false_iff.2 (List.filter_eq_nil_iff.1 hp x hx)
            cases h1 : ms₁ with
            | nil =>
              have : ms₂ = [] := by
                rw [h1] at hperm
                exact hperm.symm.eq_nil
              rw [this]
            | cons a t =>
              cases h2 : ms₂ with
              | nil =>
                rw [h2] at hperm
                rw [h1] at hperm
                exact absurd hperm.eq_nil (by simp)
              | cons b t' =>
                have ha : a ∈ ms₁ := by rw [h1]; exact List.mem_cons_self _ _
                have hb : b ∈ ms₁ := hperm.mem_iff.2 (by rw [h2]; exact List.mem_cons_self _ _)
                obtain ⟨ha1, ha2, ha3, ha4⟩ := hunrec a ha
                obtain ⟨hb1, hb2, hb3, hb4⟩ := hunrec b hb
                have : a = b := hu4 a ha b hb ha1 ha2 ha3 ha4 hb1 hb2 hb3 hb4
                simp [this]
          · have hp2 : ms₂.filter isPartName ≠ [] := by
              intro hc
              rw [hc] at hfilterperm
              exact hp hfilterperm.eq_nil
            simp only [hp, hp2, ne_eq, not_false_iff, if_true, ite_true]
            simp only [chosenSources]
            refine sorted_perm_eq (fun a b h h' => strLe_antisymm h h') ?_ ?_ ?_
            · exact ((sortByLe_perm strLe _).trans hfilterperm).trans
                (sortByLe_perm strLe _).symm
            · exact @sortByLe_pairwise String strLe
                (fun a b c h h' => strLe_trans h h') strLe_total _
            · exact @sortByLe_pairwise String strLe
                (fun a b c h h' => strLe_trans h h') strLe_total _

/-- Witness for C6: a two-member group in its two orders resolves to
the same format and the same source when the members are
case-distinct. -/
theorem resolver_determinism_witness :
    chosenFormat (resolveGroup ["y.csv.gz", "y.csv"]) =
      chosenFormat (resolveGroup ["y.csv", "y.csv.gz"]) ∧
    chosenSources (resolveGroup ["y.csv.gz", "y.csv"]) =
      chosenSources (resolveGroup ["y.csv", "y.csv.gz"]) := by
  have h := resolver_determinism ["y.csv.gz", "y.csv"] ["y.csv", "y.csv.gz"] (by decide)
  exact ⟨h.1, h.2 (by decide) (by decide) (by decide) (by decide)⟩

theorem not_gz_of_csv {s : String} (h : strEndsWith s ".csv" = true) :
    strEndsWith s ".csv.gz" = false := by
  by_contra hc
  rw [Bool.not_eq_false] at hc
  have h1 : ".csv".toList <:+ s.toList := List.isSuffixOf_iff_suffix.1 h
  have h2 : ".csv.gz".toList <:+ s.toList := List.isSuffixOf_iff_suffix.1 hc
  rcases List.suffix_or_suffix_of_suffix h1 h2 with h3 | h3
  · exact absurd h3 (by decide)
  · exact absurd h3 (by decide)

/-- Every catalog-admitted data name matches one of the four format
predicates of the resolver. -/
theorem isData_matches (m : String) (h : isDataName (strLower m) = true) :
    isPlainCsv m = true ∨ isGzName m = true ∨ isZstName m = true ∨
      isPartName m = true := by
  simp only [isDataName, Bool.or_eq_true] at h
  rcases h with ((hcsv | hgz) | hzst) | hpart
  · exact Or.inl (by simp [isPlainCsv, hcsv, not_gz_of_csv hcsv])
  · exact Or.inr (Or.inl hgz)
  · exact Or.inr (Or.inr (Or.inl hzst))
  · exact Or.inr (Or.inr (Or.inr hpart))

theorem resolveGroup_fallback_all {ms : List String} {name : String}
    (h : resolveGroup ms = .fallback name) :
    ∀ m ∈ ms, isPlainCsv m = false ∧ isGzName m = false ∧
      isZstName m = false ∧ isPartName m = false := by
  intro m hm
  unfold resolveGroup at h
  cases hf1 : ms.find? isPlainCsv with
  | some p => rw [hf1] at h; simp at h
  | none =>
    rw [hf1] at h
    cases hf2 : ms.find? isGzName with
    | some p => rw [hf2] at h; simp at h
    | none =>
      rw [hf2] at h
      cases hf3 : ms.find? isZstName with
      | some p => rw [hf3] at h; simp at h
      | none =>
        rw [hf3] at h
        by_cases hp : ms.filter isPartName = []
        · refine ⟨?_, ?_, ?_, ?_⟩
          · exact Bool.eq_false_iff.2 (List.find?_eq_none.1 hf1 m hm)
          · exact Bool.eq_false_iff.2 (List.find?_eq_none.1 hf2 m hm)
          · exact Bool.eq_false_iff.2 (List.find?_eq_none.1 hf3 m hm)
          · exact Bool.eq_false_iff.2 (List.filter_eq_nil_iff.1 hp m hm)
        · simp [hp] at h

theorem insertGroup_ne_nil :
    ∀ (acc : List (String × List String)) (b n : String),
      (∀ g ∈ acc, g.2 ≠ []) → ∀ g ∈ insertGroup acc b n, g.2 ≠ [] := by
  intro acc
  induction acc with
  | nil =>
    intro b n _ g hg
    simp only [insertGroup, List.mem_singleton] at hg
    subst hg
    simp
  | cons hd tl ih =>
    intro b n hacc g hg
    obtain ⟨b', ms'⟩ := hd
    simp only [insertGroup] at hg
    by_cases hb : b' = b
    · rw [if_pos hb] at hg
      rcases List.mem_cons.1 hg with rfl | hg'
      · simp
      · exact hacc g (List.mem_cons_of_mem _ hg')
    · rw [if_neg hb] at hg
      rcases List.mem_cons.1 hg with rfl | hg'
      · exact hacc (b', ms') (List.mem_cons_self _ _)
      · exact ih b n (fun g' h' => hacc g' (List.mem_cons_of_mem _ h')) g hg'

theorem groupEntries_ne_nil (names : List String) :
    ∀ g ∈ groupEntries names, g.2 ≠ [] := by
  unfold groupEntries
  generalize hacc : ([] : List (String × List String)) = acc
  have hbase : ∀ g ∈ acc, g.2 ≠ [] := by
    rw [← hacc]
    simp
  clear hacc
  induction names generalizing acc with
  | nil => exact hbase
  | cons n t ih =>
    simp only [List.foldl_cons]
    exact ih _ (insertGroup_ne_nil acc (baseOf n) n hbase)

/-- A successfully admitted catalog entry keeps the item name, and a
`"data"` kind means the name carries a recognized data suffix. -/
theorem entryOfItem_some {dataset : String} {item : RemoteItem} {e : FileEntry}
    (h : entryOfItem dataset item = some e) :
    e.name = item.name ∧
    (e.kind = "data" → isDataName (strLower item.name) = true) := by
  unfold entryOfItem at h
  by_cases h1 : item.itemType ≠ "file"
  · simp [h1] at h
  · rw [if_neg h1] at h
    by_cases h2 : item.name = ""
    · simp [h2] at h
    · rw [if_neg h2] at h
      dsimp only at h
      cases hd : isDataName (strLower item.name) with
      | true =>
        rw [hd] at h
        simp only [Bool.true_or, Bool.not_true, Bool.false_eq_true, if_false] at h
        have he := Option.some.inj h
        refine ⟨by rw [← he], fun _ => rfl⟩
      | false =>
        rw [hd] at h
        cases hs : isShaName (strLower item.name) with
        | false =>
          rw [hs] at h
          simp at h
        | true =>
          rw [hs] at h
          simp only [Bool.false_or, Bool.not_true, Bool.false_eq_true, if_false] at h
          have he := Option.some.inj h
          refine ⟨by rw [← he], fun hkind => ?_⟩
          rw [← he] at hkind
          simp only [hs, if_pos] at hkind
          exact absurd hkind (by decide)

/-- Data entries always carry a data-suffix name. -/
theorem entry_data_isDataName {dataset : String} {payload : Payload}
    {e : FileEntry} (he : e ∈ entriesOfPayload dataset payload)
    (hk : e.kind = "data") : isDataName (strLower e.name) = true := by
  cases payload with
  | nonList => simp [entriesOfPayload] at he
  | list items =>
    simp only [entriesOfPayload, List.mem_filterMap] at he
    obtain ⟨item, _, hitem⟩ := he
    obtain ⟨hname, hdata⟩ := entryOfItem_some hitem
    rw [hname]
    exact hdata hk

/-- C10: the resolver's opaque-fallback branch is dead code for
catalog-produced inputs — every member of every variant group built
from catalog-admitted data files matches one of the four recognized
format predicates, so no such group resolves to the fallback. -/
theorem fallback_dead_for_catalog (dataset : String) (payload : Payload)
    (dlList : List (String × String)) (base : String) (ms : List String)
    (hmem : (base, ms) ∈ sortGroups (groupEntries
      (dataNames (entriesOfPayload dataset payload) dlList))) :
    (∀ m ∈ ms, isPlainCsv m = true ∨ isGzName m = true ∨ isZstName m = true ∨
      isPartName m = true) ∧
    (∀ name, resolveGroup ms ≠ .fallback name) := by
  have hmem' : (base, ms) ∈
      groupEntries (dataNames (entriesOfPayload dataset payload) dlList) :=
    (sortByLe_perm _ _).mem_iff.1 hmem
  have hmatch : ∀ m ∈ ms, isPlainCsv m = true ∨ isGzName m = true ∨
      isZstName m = true ∨ isPartName m = true := by
    intro m hm
    have hmd : m ∈ dataNames (entriesOfPayload dataset payload) dlList :=
      groupEntries_members _ _ hmem' m hm
    simp only [dataNames, List.mem_filter, List.mem_map] at hmd
    obtain ⟨⟨e, hee, hname⟩, _⟩ := hmd
    have hdata := entry_data_isDataName hee.1 (by simpa using hee.2)
    rw [hname] at hdata
    exact isData_matches m hdata
  refine ⟨hmatch, ?_⟩
  intro name hres
  have hne : ms ≠ [] := groupEntries_ne_nil _ (base, ms) hmem'
  obtain ⟨m, hm⟩ := List.exists_mem_of_ne_nil ms hne
  obtain ⟨h1, h2, h3, h4⟩ := resolveGroup_fallback_all hres m hm
  rcases hmatch m hm with h | h | h | h <;> simp_all

/-- Witness for C10: the one-file `demo.csv` catalog group never
resolves to the fallback. -/
theorem fallback_dead_for_catalog_witness :
    resolveGroup ["demo.csv.gz"] ≠ .fallback "demo.csv.gz" :=
  (fallback_dead_for_catalog "demo" payloadOk [("demo.csv.gz", "x")] "demo"
    ["demo.csv.gz"] (by decide)).2 "demo.csv.gz"

/-- Witness for C5: the `demo` scenario fails on the missing
`demo.csv.zst.sha256` and leaves no outputs. -/
theorem missing_checksum_aborts_witness :
    processGroup env₀ (lookupDl [("demo.csv.zst", "Z")]) "demo" ["demo.csv.zst"] =
      .error (.missingChecksum "demo.csv.zst.sha256" "demo.csv.zst") ∧
    runMain env₀ fetchW "demo" (.ok payloadW) 7 =
      { archive := none, attachments := false, orderFile := none } := by
  have h := missing_checksum_aborts env₀ fetchW "demo" payloadW 7
      [("demo.csv.zst", "Z")] rfl "demo" ["demo.csv.zst"]
      "demo.csv.zst.sha256" "demo.csv.zst" (by decide)
      (Or.inl ⟨"demo.csv.zst", rfl, rfl, rfl⟩) rfl
  exact ⟨h.1, h.2.2.2⟩

/-! ### Helper lemmas for archive determinism (C7) -/

theorem fetchAllEntries_names {fetch : String → Option String} :
    ∀ {entries : List FileEntry} {dlList : List (String × String)},
      fetchAllEntries fetch entries = .ok dlList →
      dlList.map Prod.fst = entries.map (fun e => e.name) := by
  intro entries
  induction entries with
  | nil =>
    intro dlList h
    simp only [fetchAllEntries] at h
    cases h
    rfl
  | cons e rest ih =>
    intro dlList h
    simp only [fetchAllEntries] at h
    cases hf : fetch e.url with
    | none => rw [hf] at h; exact absurd h (by simp)
    | some b =>
      rw [hf] at h
      cases hr : fetchAllEntries fetch rest with
      | error u => rw [hr] at h; exact absurd h (by simp)
      | ok l =>
        rw [hr] at h
        cases h
        simp [ih hr]

theorem lookupDl_isSome_of_mem {dlList : List (String × String)} {n : String}
    (h : n ∈ dlList.map Prod.fst) : (lookupDl dlList n).isSome = true := by
  obtain ⟨p, hp, hpn⟩ := List.mem_map.1 h
  have hmemf : p ∈ dlList.filter (fun q => q.1 = n) :=
    List.mem_filter.2 ⟨hp, by simp [hpn]⟩
  have hne : dlList.filter (fun q => q.1 = n) ≠ [] := List.ne_nil_of_mem hmemf
  have hsome := List.getLast?_isSome.2 hne
  unfold lookupDl
  cases hgl : (dlList.filter (fun q => q.1 = n)).getLast? with
  | none => rw [hgl] at hsome; exact absurd hsome (by simp)
  | some q => simp [hgl]

/-- Once every entry has been downloaded, the grouping loop sees
exactly the data entry names. -/
theorem dataNames_eq {fetch : String → Option String} {entries : List FileEntry}
    {dlList : List (String × String)}
    (hfetch : fetchAllEntries fetch entries = .ok dlList) :
    dataNames entries dlList =
      (entries.filter (fun e => e.kind = "data")).map (fun e => e.name) := by
  unfold dataNames
  apply List.filter_eq_self.2
  intro n hn
  obtain ⟨e, he, hname⟩ := List.mem_map.1 hn
  have hmem : n ∈ entries.map (fun e => e.name) := by
    rw [← fetchAllEntries_names hfetch]
    rw [fetchAllEntries_names hfetch]
    exact List.mem_map.2 ⟨e, (List.mem_filter.1 he).1, hname⟩
  rw [← fetchAllEntries_names hfetch] at hmem
  exact lookupDl_isSome_of_mem hmem

theorem processGroup_ok_name {env : Env} {dl : String → Option String}
    {base : String} {ms : List String} {f : String × String}
    (h : processGroup env dl base ms = .ok f) : f.1 = base ++ ".csv" := by
  unfold processGroup at h
  cases hres : resolveGroup ms with
  | csvFile p =>
    rw [hres] at h
    dsimp only at h
    cases hd : dl p with
    | none => simp only [hd] at h; exact Except.noConfusion h
    | some b =>
      simp only [hd] at h
      by_cases hpe : p = base ++ ".csv"
      · rw [if_pos hpe] at h
        exact Except.noConfusion h
      · rw [if_neg hpe] at h
        cases h
        rfl
  | gzFile p =>
    rw [hres] at h
    dsimp only at h
    cases hd : dl p with
    | none => simp only [hd] at h; exact Except.noConfusion h
    | some b => simp only [hd] at h; cases h; rfl
  | zstFile p =>
    rw [hres] at h
    dsimp only at h
    cases hd : dl p with
    | none => simp only [hd] at h; exact Except.noConfusion h
    | some b =>
      simp only [hd] at h
      cases hs : dl (p ++ ".sha256") with
      | none => simp only [hs] at h; exact Except.noConfusion h
      | some shaC =>
        simp only [hs] at h
        cases hv : verifySha256 env b shaC with
        | error m => simp only [hv] at h; exact Except.noConfusion h
        | ok u =>
          simp only [hv] at h
          by_cases hz : env.zstdAvailable = true
          · rw [if_pos hz] at h; cases h; rfl
          · rw [if_neg hz] at h; exact Except.noConfusion h
  | zstParts ps =>
    rw [hres] at h
    dsimp only at h
    cases hc : collectParts dl (sortByLe strLe ps) with
    | error n => simp only [hc] at h; exact Except.noConfusion h
    | ok combined =>
      simp only [hc] at h
      cases hs : dl (base ++ ".csv.zst.sha256") with
      | none => simp only [hs] at h; exact Except.noConfusion h
      | some shaC =>
        simp only [hs] at h
        cases hv : verifySha256 env combined shaC with
        | error m => simp only [hv] at h; exact Except.noConfusion h
        | ok u =>
          simp only [hv] at h
          by_cases hz : env.zstdAvailable = true
          · rw [if_pos hz] at h; cases h; rfl
          · rw [if_neg hz] at h; exact Except.noConfusion h
  | fallback p =>
    rw [hres] at h
    dsimp only at h
    cases hd : dl p with
    | none => simp only [hd] at h; exact Except.noConfusion h
    | some b =>
      simp only [hd] at h
      by_cases hpe : p = base ++ ".csv"
      · rw [if_pos hpe] at h
        exact Except.noConfusion h
      · rw [if_neg hpe] at h
        cases h
        rfl

theorem processGroups_names {env : Env} {dl : String → Option String} :
    ∀ {groups : List (String × List String)} {added : List (String × String)},
      processGroups env dl groups = .ok added →
      added.map Prod.fst = groups.map (fun g => g.1 ++ ".csv") := by
  intro groups
  induction groups with
  | nil =>
    intro added h
    cases h
    rfl
  | cons hd tl ih =>
    intro added h
    obtain ⟨b, ms⟩ := hd
    simp only [processGroups] at h
    cases hp : processGroup env dl b ms with
    | error e => rw [hp] at h; exact absurd h (by simp)
    | ok f =>
      rw [hp] at h
      cases hps : processGroups env dl tl with
      | error e => rw [hps] at h; exact absurd h (by simp)
      | ok fs =>
        rw [hps] at h
        cases h
        simp [processGroup_ok_name hp, ih hps]

theorem validateAll_names {env : Env} :
    ∀ {added rep : List (String × String)},
      validateAll env added = .ok rep →
      rep.map Prod.fst = added.map Prod.fst := by
  intro added
  induction added with
  | nil =>
    intro rep h
    cases h
    rfl
  | cons hd tl ih =>
    intro rep h
    obtain ⟨n, c⟩ := hd
    simp only [validateAll] at h
    cases hv : validateCsvFile env c with
    | error e => rw [hv] at h; exact absurd h (by simp)
    | ok c2 =>
      rw [hv] at h
      cases hr : validateAll env tl with
      | error e => rw [hr] at h; exact absurd h (by simp)
      | ok rest2 =>
        rw [hr] at h
        cases h
        simp [ih hr]

/-- Dissection of a successful `_download_prepared_dataset` run. -/
theorem downloadPreparedEntries_ok_elim {env : Env}
    {fetch : String → Option String} {dataset : String}
    {entries : List FileEntry} {res : List (String × String)}
    (h : downloadPreparedEntries env fetch dataset entries = .ok res) :
    ∃ dlList added rep,
      fetchAllEntries fetch entries = .ok dlList ∧
      processGroups env (lookupDl dlList)
        (sortGroups (groupEntries (dataNames entries dlList))) = .ok added ∧
      validateAll env added = .ok rep ∧
      res = sortByLe (fun a b => strLe a.1 b.1) rep := by
  unfold downloadPreparedEntries at h
  by_cases he : entries.isEmpty
  · rw [if_pos he] at h
    exact absurd h (by simp)
  · rw [if_neg he] at h
    cases hf : fetchAllEntries fetch entries with
    | error u => rw [hf] at h; exact absurd h (by simp)
    | ok dlList =>
      rw [hf] at h
      dsimp only at h
      cases hp : processGroups env (lookupDl dlList)
          (sortGroups (groupEntries (dataNames entries dlList))) with
      | error e => rw [hp] at h; exact absurd h (by simp)
      | ok added =>
        rw [hp] at h
        dsimp only at h
        by_cases hbad : ((added.map (fun f => f.1)).filter
            (fun n => containsSubstr n ".sha256")) ≠ []
        · rw [if_pos hbad] at h
          exact absurd h (by simp)
        · rw [if_neg hbad] at h
          cases hv : validateAll env added with
          | error e => rw [hv] at h; exact absurd h (by simp)
          | ok rep =>
            rw [hv] at h
            dsimp only at h
            cases h
            exact ⟨dlList, added, rep, rfl, hp, hv, rfl⟩

theorem insertGroup_keys (acc : List (String × List String)) (b n : String) :
    (insertGroup acc b n).map Prod.fst =
      if b ∈ acc.map Prod.fst then acc.map Prod.fst
      else acc.map Prod.fst ++ [b] := by
  induction acc with
  | nil => simp [insertGroup]
  | cons hd tl ih =>
    obtain ⟨b2, ms2⟩ := hd
    simp only [insertGroup]
    by_cases hb : b2 = b
    · subst hb
      rw [if_pos rfl]
      simp
    · rw [if_neg hb]
      simp only [List.map_cons]
      rw [ih]
      by_cases hmem : b ∈ tl.map Prod.fst
      · rw [if_pos hmem, if_pos (by simp [hmem])]
      · rw [if_neg hmem, if_neg (by
          simp only [List.mem_cons, not_or]
          exact ⟨fun h => hb h.symm, hmem⟩)]
        simp

theorem mem_keys_insertGroup {acc : List (String × List String)}
    {b n x : String} :
    x ∈ (insertGroup acc b n).map Prod.fst ↔ x ∈ acc.map Prod.fst ∨ x = b := by
  rw [insertGroup_keys]
  by_cases hb : b ∈ acc.map Prod.fst
  · rw [if_pos hb]
    constructor
    · exact Or.inl
    · rintro (h | rfl)
      · exact h
      · exact hb
  · rw [if_neg hb]
    simp

theorem insertGroup_keys_nodup {acc : List (String × List String)}
    {b n : String} (h : (acc.map Prod.fst).Nodup) :
    ((insertGroup acc b n).map Prod.fst).Nodup := by
  rw [insertGroup_keys]
  by_cases hb : b ∈ acc.map Prod.fst
  · rw [if_pos hb]
    exact h
  · rw [if_neg hb]
    simp [List.nodup_append, h, hb]

theorem foldl_keys_nodup (l : List String) :
    ∀ acc : List (String × List String), (acc.map Prod.fst).Nodup →
      ((l.foldl (fun acc n => insertGroup acc (baseOf n) n) acc).map Prod.fst).Nodup := by
  induction l with
  | nil => exact fun acc h => h
  | cons n t ih =>
    intro acc h
    simp only [List.foldl_cons]
    exact ih _ (insertGroup_keys_nodup h)

theorem foldl_keys_mem (l : List String) :
    ∀ (acc : List (String × List String)) (x : String),
      (x ∈ (l.foldl (fun acc n => insertGroup acc (baseOf n) n) acc).map Prod.fst ↔
        x ∈ acc.map Prod.fst ∨ ∃ n ∈ l, baseOf n = x) := by
  induction l with
  | nil =>
    intro acc x
    simp
  | cons n t ih =>
    intro acc x
    simp only [List.foldl_cons]
    rw [ih, mem_keys_insertGroup]
    constructor
    · rintro ((h | rfl) | h)
      · exact Or.inl h
      · exact Or.inr ⟨n, List.mem_cons_self _ _, rfl⟩
      · obtain ⟨m, hm, hx⟩ := h
        exact Or.inr ⟨m, List.mem_cons_of_mem _ hm, hx⟩
    · rintro (h | ⟨m, hm, hx⟩)
      · exact Or.inl (Or.inl h)
      · rcases List.mem_cons.1 hm with rfl | hm2
        · exact Or.inl (Or.inr hx.symm)
        · exact Or.inr ⟨m, hm2, hx⟩

theorem groupEntries_keys_nodup (names : List String) :
    ((groupEntries names).map Prod.fst).Nodup :=
  foldl_keys_nodup names [] (by simp)

theorem mem_groupEntries_keys (names : List String) (x : String) :
    x ∈ (groupEntries names).map Prod.fst ↔ ∃ n ∈ names, baseOf n = x := by
  unfold groupEntries
  rw [foldl_keys_mem]
  simp

/-- The sorted group keys depend only on the multiset of data names. -/
theorem sortGroups_keys_eq {names₁ names₂ : List String}
    (hperm : names₁.Perm names₂) :
    (sortGroups (groupEntries names₁)).map Prod.fst =
      (sortGroups (groupEntries names₂)).map Prod.fst := by
  have hp₁ : ((sortGroups (groupEntries names₁)).map Prod.fst).Perm
      ((groupEntries names₁).map Prod.fst) := (sortByLe_perm _ _).map Prod.fst
  have hp₂ : ((sortGroups (groupEntries names₂)).map Prod.fst).Perm
      ((groupEntries names₂).map Prod.fst) := (sortByLe_perm _ _).map Prod.fst
  have hnd₁ : ((sortGroups (groupEntries names₁)).map Prod.fst).Nodup :=
    hp₁.symm.nodup (groupEntries_keys_nodup names₁)
  have hnd₂ : ((sortGroups (groupEntries names₂)).map Prod.fst).Nodup :=
    hp₂.symm.nodup (groupEntries_keys_nodup names₂)
  have hsorted : ∀ gs : List (String × List String),
      ((sortByLe (fun a b => strLe a.1 b.1) gs).map Prod.fst).Pairwise
        (fun a b => strLe a b = true) := by
    intro gs
    have hpw := @sortByLe_pairwise (String × List String)
      (fun a b => strLe a.1 b.1)
      (fun a b c h h2 => strLe_trans h h2) (fun a b => strLe_total a.1 b.1) gs
    exact List.Pairwise.map Prod.fst (fun a b h => h) hpw
  have hmemeq : ∀ x, x ∈ (sortGroups (groupEntries names₁)).map Prod.fst ↔
      x ∈ (sortGroups (groupEntries names₂)).map Prod.fst := by
    intro x
    rw [hp₁.mem_iff, hp₂.mem_iff, mem_groupEntries_keys, mem_groupEntries_keys]
    constructor
    · rintro ⟨m, hm, hx⟩
      exact ⟨m, hperm.mem_iff.1 hm, hx⟩
    · rintro ⟨m, hm, hx⟩
      exact ⟨m, hperm.mem_iff.2 hm, hx⟩
  have hpermk := (List.perm_ext_iff_of_nodup hnd₁ hnd₂).2 hmemeq
  exact sorted_perm_eq (fun a b h h2 => strLe_antisymm h h2) hpermk
    (hsorted (groupEntries names₁)) (hsorted (groupEntries names₂))

/-- C7: the archive members of a successful run are exactly the
materialized `{base}.csv` files, in order sorted by final filename, so
two runs over the same set of input files presented in different
discovery orders write archives with the same members in the same
order. -/
theorem archive_deterministic
    (env : Env) (fetch : String → Option String) (dataset : String)
    (entries₁ entries₂ : List FileEntry) (res₁ res₂ : List (String × String))
    (hperm : entries₁.Perm entries₂)
    (h₁ : downloadPreparedEntries env fetch dataset entries₁ = .ok res₁)
    (h₂ : downloadPreparedEntries env fetch dataset entries₂ = .ok res₂) :
    (res₁.map Prod.fst).Pairwise (fun a b => strLe a b = true) ∧
    (res₁.map Prod.fst).Perm
      ((sortGroups (groupEntries ((entries₁.filter (fun e => e.kind = "data")).map
        (fun e => e.name)))).map (fun g => g.1 ++ ".csv")) ∧
    res₁.map Prod.fst = res₂.map Prod.fst := by
  obtain ⟨dl₁, added₁, rep₁, hf₁, hpg₁, hv₁, hr₁⟩ := downloadPreparedEntries_ok_elim h₁
  obtain ⟨dl₂, added₂, rep₂, hf₂, hpg₂, hv₂, hr₂⟩ := downloadPreparedEntries_ok_elim h₂
  have hsortedmap : ∀ l : List (String × String),
      ((sortByLe (fun a b => strLe a.1 b.1) l).map Prod.fst).Pairwise
        (fun a b => strLe a b = true) := by
    intro l
    have hpw := @sortByLe_pairwise (String × String)
      (fun a b => strLe a.1 b.1)
      (fun a b c h h2 => strLe_trans h h2) (fun a b => strLe_total a.1 b.1) l
    exact List.Pairwise.map Prod.fst (fun a b h => h) hpw
  have hsort₁ : (res₁.map Prod.fst).Pairwise (fun a b => strLe a b = true) := by
    rw [hr₁]
    exact hsortedmap rep₁
  have hsort₂ : (res₂.map Prod.fst).Pairwise (fun a b => strLe a b = true) := by
    rw [hr₂]
    exact hsortedmap rep₂
  have hkp₁ : (res₁.map Prod.fst).Perm
      ((sortGroups (groupEntries (dataNames entries₁ dl₁))).map
        (fun g => g.1 ++ ".csv")) := by
    rw [hr₁]
    refine ((sortByLe_perm _ _).map Prod.fst).trans ?_
    rw [validateAll_names hv₁, processGroups_names hpg₁]
  have hkp₂ : (res₂.map Prod.fst).Perm
      ((sortGroups (groupEntries (dataNames entries₂ dl₂))).map
        (fun g => g.1 ++ ".csv")) := by
    rw [hr₂]
    refine ((sortByLe_perm _ _).map Prod.fst).trans ?_
    rw [validateAll_names hv₂, processGroups_names hpg₂]
  rw [dataNames_eq hf₁] at hkp₁
  rw [dataNames_eq hf₂] at hkp₂
  have hnp : (((entries₁.filter (fun e => e.kind = "data")).map
        (fun e => e.name))).Perm
      ((entries₂.filter (fun e => e.kind = "data")).map (fun e => e.name)) :=
    (hperm.filter _).map _
  have hkeys := sortGroups_keys_eq hnp
  have hmap : ∀ gs : List (String × List String),
      gs.map (fun g => g.1 ++ ".csv") =
        (gs.map Prod.fst).map (fun b => b ++ ".csv") := by
    intro gs
    rw [List.map_map]
    rfl
  have hmeq : ((sortGroups (groupEntries ((entries₁.filter
        (fun e => e.kind = "data")).map (fun e => e.name)))).map
          (fun g => g.1 ++ ".csv")) =
      ((sortGroups (groupEntries ((entries₂.filter
        (fun e => e.kind = "data")).map (fun e => e.name)))).map
          (fun g => g.1 ++ ".csv")) := by
    rw [hmap, hmap, hkeys]
  have hpermres : (res₁.map Prod.fst).Perm (res₂.map Prod.fst) :=
    hkp₁.trans (hmeq ▸ hkp₂.symm)
  exact ⟨hsort₁, hkp₁,
    sorted_perm_eq (fun a b h h2 => strLe_antisymm h h2) hpermres hsort₁ hsort₂⟩

/-- Entries for the C7 witness (gzip variants: plain lowercase `.csv`
members crash the program in `shutil.copy2`). -/
def entA : FileEntry := { name := "a.csv.gz", url := "ua", kind := "data" }

/-- Entries for the C7 witness. -/
def entB : FileEntry := { name := "b.csv.gz", url := "ub", kind := "data" }

/-- Fetch function for the C7 witness. -/
def fetchAB : String → Option String := fun u =>
  if u = "ua" then some "x,y\n1,2\n"
  else if u = "ub" then some "p,q\n3,4\n" else none

/-- Witness for C7: the two discovery orders of `{a.csv, b.csv}`
produce archives with the same member names in the same order. -/
theorem archive_deterministic_witness :
    ([("a.csv", "x,y\n1,2\n"), ("b.csv", "p,q\n3,4\n")].map Prod.fst) =
      ([("a.csv", "x,y\n1,2\n"), ("b.csv", "p,q\n3,4\n")].map Prod.fst) :=
  (archive_deterministic envOk fetchAB "d" [entA, entB] [entB, entA]
    [("a.csv", "x,y\n1,2\n"), ("b.csv", "p,q\n3,4\n")]
    [("a.csv", "x,y\n1,2\n"), ("b.csv", "p,q\n3,4\n")]
    (by decide) rfl rfl).2.2

end DataImport
